import Mathlib

/-!
Verification of the transport and session protocol layer of the Entrez MCP
Python SDK (src/sdk/python/entrez_sdk.py).

The development shallowly embeds the SDK's pure logic:
JSON values are modelled by the inductive `JVal` (numbers restricted to
integers, which is all the SDK's own payloads use), Python string helpers
(`str.strip`, `str.lstrip`, `str.splitlines`, `str.split`, `str.lower`) are
modelled over `List Char`, and the standard library's `json.dumps` /
`json.loads` are modelled by the fuelled, executable functions `dumpsF` and
`parseF` (strict JSON, `ensure_ascii` behaviour, default separators).
Stateful parts (the session id) are modelled by explicit state passing:
`requestPayload` maps the previous session id and an `HttpResponse` to the
new session id and the call's outcome, exactly following
`EntrezSDK._request_payload`.
-/

/-- JSON values as handled by the SDK; `null` doubles as Python `None`.
Numbers are modelled as integers (the SDK never manipulates floats).
Objects are insertion-ordered association lists, mirroring Python dicts;
all dict-producing code in this development keeps keys unique. -/
inductive JVal where
  | null : JVal
  | bool (b : Bool) : JVal
  | num (i : Int) : JVal
  | str (s : String) : JVal
  | arr (items : List JVal) : JVal
  | obj (fields : List (String × JVal)) : JVal

/-- Python truthiness of a JSON value (`if result:` etc.). -/
def JVal.truthy : JVal → Bool
  | .null => false
  | .bool b => b
  | .num i => !(i == 0)
  | .str s => !(s == "")
  | .arr l => !l.isEmpty
  | .obj l => !l.isEmpty

/-- Python `isinstance(v, dict)`. -/
def JVal.isObj : JVal → Bool
  | .obj _ => true
  | _ => false

/-- Height of a JSON value, used as serialization fuel. -/
def jheight : JVal → Nat
  | .null | .bool _ | .num _ | .str _ => 1
  | .arr items => 1 + (items.attach.map (fun x => jheight x.1)).foldr max 0
  | .obj fields => 1 + (fields.attach.map (fun x => jheight x.1.2)).foldr max 0
decreasing_by
  · simp only [JVal.arr.sizeOf_spec]
    have := List.sizeOf_lt_of_mem x.2
    omega
  · simp only [JVal.obj.sizeOf_spec]
    have h1 := List.sizeOf_lt_of_mem x.2
    have h2 : sizeOf x.1.2 < sizeOf x.1 := by
      obtain ⟨⟨k, v⟩, hm⟩ := x
      simp only [Prod.mk.sizeOf_spec]
      omega
    omega

/-- Python `'k' in d` for a dict: key membership. -/
def hasKey (fields : List (String × JVal)) (k : String) : Bool :=
  fields.any (fun kv => kv.1 == k)

/-- Python `d[k] = v` / `{**d, k: v}` on a unique-key dict: replace the
value in place when the key is present, else append the pair. -/
def dictSet (fields : List (String × JVal)) (k : String) (v : JVal) :
    List (String × JVal) :=
  if hasKey fields k then fields.map (fun kv => if kv.1 == k then (k, v) else kv)
  else fields ++ [(k, v)]

/- ===== Python string helpers ===== -/

/-- The whitespace characters stripped by Python `str.strip` / `str.lstrip`
(characters for which `str.isspace` holds). -/
def pyIsSpace (c : Char) : Bool :=
  c = ' ' || c = '\t' || c = '\n' || c = '\r' || c = '\x0b' || c = '\x0c' ||
  c = '\x1c' || c = '\x1d' || c = '\x1e' || c = '\x1f' || c = '\x85' || c = '\xa0' ||
  c = '\u1680' || ('\u2000' ≤ c && c ≤ '\u200a') || c = '\u2028' || c = '\u2029' ||
  c = '\u202f' || c = '\u205f' || c = '\u3000'

/-- Python `str.lstrip()` (no argument). -/
def pyLstripL (cs : List Char) : List Char := cs.dropWhile pyIsSpace

/-- Python `str.strip()` (no argument). -/
def pyStripL (cs : List Char) : List Char :=
  (pyLstripL (pyLstripL cs).reverse).reverse

/-- Python `str.strip()` on `String`. -/
def pyStrip (s : String) : String := String.mk (pyStripL s.data)

/-- ASCII lowering of one character, enough for Python `str.lower` on the
header and `data:` prefixes handled by the SDK. -/
def pyLower (c : Char) : Char :=
  if 'A' ≤ c && c ≤ 'Z' then Char.ofNat (c.toNat + 32) else c

/-- Python `str.lower` on `String` (ASCII part). -/
def lowerStr (s : String) : String := String.mk (s.data.map pyLower)

/-- Line boundaries recognised by Python `str.splitlines`. -/
def isLineBoundary (c : Char) : Bool :=
  c = '\n' || c = '\r' || c = '\x0b' || c = '\x0c' || c = '\x1c' || c = '\x1d' ||
  c = '\x1e' || c = '\x85' || c = '\u2028' || c = '\u2029'

/-- Python `str.splitlines()`: split at line boundaries, `\r\n` counting as
one boundary, with no trailing empty line. -/
def pySplitlines : List Char → List (List Char)
  | [] => []
  | '\r' :: '\n' :: rest => [] :: pySplitlines rest
  | c :: rest =>
    if isLineBoundary c then [] :: pySplitlines rest
    else match pySplitlines rest with
      | [] => [[c]]
      | l :: ls => (c :: l) :: ls

/-- Python `text.split(sep)` specialised to the two-newline separator used by
`_parse_sse_payload`: non-overlapping, left to right. -/
def splitNN : List Char → List (List Char)
  | [] => [[]]
  | '\n' :: '\n' :: rest => [] :: splitNN rest
  | c :: rest =>
    match splitNN rest with
    | [] => [[c]]
    | l :: ls => (c :: l) :: ls

/-- The second component of Python `s.split(n, 1)` for the colon separator:
everything after the first `:` (empty when there is none). -/
def afterColon : List Char → List Char
  | [] => []
  | ':' :: rest => rest
  | _ :: rest => afterColon rest

/-- Python `sep.join(parts)`. -/
def joinSep (sep : List Char) : List (List Char) → List Char
  | [] => []
  | [l] => l
  | l :: ls => l ++ sep ++ joinSep sep ls

/-- Boolean list-prefix test. -/
def isPrefixOfL : List Char → List Char → Bool
  | [], _ => true
  | _ :: _, [] => false
  | p :: ps, c :: cs => p == c && isPrefixOfL ps cs

/-- The characters of the SSE field name `data:`. -/
def dataColon : List Char := ['d', 'a', 't', 'a', ':']

/-- Python `stripped.lower().startswith('data:')`. -/
def lowerStartsDataColon (cs : List Char) : Bool :=
  isPrefixOfL dataColon (cs.map pyLower)

/-- Head-character test (Python `s.startswith(c)` for one character). -/
def headIs (c : Char) : List Char → Bool
  | x :: _ => x == c
  | [] => false

/-- Last-character test (Python `s.endswith(c)` for one character). -/
def lastIs (c : Char) (cs : List Char) : Bool := headIs c cs.reverse

/-- Python `needle in haystack` on strings: substring test. -/
def hasSubstr (needle : List Char) : List Char → Bool
  | [] => needle.isEmpty
  | c :: rest => isPrefixOfL needle (c :: rest) || hasSubstr needle rest

/- ===== Decimal integer printing and parsing (models Python int
serialization inside json) ===== -/

/-- Decimal digits of a natural number, most significant first, fuelled by
the number itself. -/
def natReprAux : Nat → Nat → List Char
  | 0, _ => []
  | f + 1, n =>
    if n < 10 then [Char.ofNat (48 + n % 10)]
    else natReprAux f (n / 10) ++ [Char.ofNat (48 + n % 10)]

/-- Decimal representation of a natural number. -/
def natRepr (n : Nat) : List Char := natReprAux (n + 1) n

/-- Decimal representation of an integer, as `json.dumps` emits it. -/
def intRepr (i : Int) : List Char :=
  if i < 0 then '-' :: natRepr i.natAbs else natRepr i.natAbs

/-- Decimal integer representation as a `String`. -/
def intReprS (i : Int) : String := String.mk (intRepr i)

/-- Value of a list of decimal digit characters. -/
def digitsVal (ds : List Char) : Nat :=
  ds.foldl (fun a c => a * 10 + (c.toNat - 48)) 0

/-- Parse a JSON natural-number literal prefix: one or more digits, no
leading zero, not followed by a float continuation (`.`, `e`, `E`). -/
def parseNat (cs : List Char) : Option (Nat × List Char) :=
  let ds := cs.takeWhile Char.isDigit
  let rest := cs.dropWhile Char.isDigit
  if ds.isEmpty then none
  else if ds.length > 1 ∧ ds.head? = some '0' then none
  else match rest with
    | c :: _ => if c = '.' ∨ c = 'e' ∨ c = 'E' then none else some (digitsVal ds, rest)
    | [] => some (digitsVal ds, [])

/-- Parse a JSON integer literal prefix (model restriction: JSON floats are
not modelled and make the parse fail). -/
def parseNumber (cs : List Char) : Option (Int × List Char) :=
  match cs with
  | [] => none
  | c :: r =>
    if c = '-' then (parseNat r).map (fun p => (-(p.1 : Int), p.2))
    else (parseNat (c :: r)).map (fun p => ((p.1 : Int), p.2))

/- ===== String escaping (json.dumps with ensure_ascii=True) and string
parsing (strict json.loads) ===== -/

/-- Hex digit character (lowercase), as `json.dumps` emits in escapes. -/
def hexDigitChar (k : Nat) : Char :=
  Char.ofNat (if k % 16 < 10 then 48 + k % 16 else 87 + k % 16)

/-- Four-digit hex representation of a value below `0x10000`. -/
def hex4 (n : Nat) : List Char :=
  [hexDigitChar (n / 4096 % 16), hexDigitChar (n / 256 % 16),
   hexDigitChar (n / 16 % 16), hexDigitChar (n % 16)]

/-- Value of one hex digit character (accepting both cases, as the parser
does). -/
def hexVal1 (c : Char) : Option Nat :=
  if 48 ≤ c.toNat ∧ c.toNat ≤ 57 then some (c.toNat - 48)
  else if 97 ≤ c.toNat ∧ c.toNat ≤ 102 then some (c.toNat - 87)
  else if 65 ≤ c.toNat ∧ c.toNat ≤ 70 then some (c.toNat - 55)
  else none

/-- Value of a four-hex-digit escape body. -/
def hexVal4 (a b c d : Char) : Option Nat :=
  match hexVal1 a, hexVal1 b, hexVal1 c, hexVal1 d with
  | some x, some y, some z, some w => some (((x * 16 + y) * 16 + z) * 16 + w)
  | _, _, _, _ => none

/-- Escape one character the way `json.dumps` does with `ensure_ascii=True`:
two-character escapes for the usual control characters, `\uXXXX` for other
control and all non-ASCII characters, surrogate pairs above `0xFFFF`. -/
def escapeChar (c : Char) : List Char :=
  if c = '"' then ['\\', '"']
  else if c = '\\' then ['\\', '\\']
  else if c = '\n' then ['\\', 'n']
  else if c = '\r' then ['\\', 'r']
  else if c = '\t' then ['\\', 't']
  else if c = '\x08' then ['\\', 'b']
  else if c = '\x0c' then ['\\', 'f']
  else if c.toNat < 0x20 then '\\' :: 'u' :: hex4 c.toNat
  else if c.toNat < 0x7f then [c]
  else if c.toNat < 0x10000 then '\\' :: 'u' :: hex4 c.toNat
  else '\\' :: 'u' :: hex4 (0xD800 + (c.toNat - 0x10000) / 0x400) ++
       '\\' :: 'u' :: hex4 (0xDC00 + (c.toNat - 0x10000) % 0x400)

/-- Escape a whole character list. -/
def escChars : List Char → List Char
  | [] => []
  | c :: cs => escapeChar c ++ escChars cs

/-- Serialize a JSON string: quotes around the escaped characters. -/
def quoteStr (s : String) : List Char := '"' :: escChars s.data ++ ['"']

/-- The single unescape table of strict `json.loads` for two-character
escapes. -/
def unescape1 (e : Char) : Option Char :=
  if e = '"' then some '"'
  else if e = '\\' then some '\\'
  else if e = '/' then some '/'
  else if e = 'b' then some '\x08'
  else if e = 'f' then some '\x0c'
  else if e = 'n' then some '\n'
  else if e = 'r' then some '\r'
  else if e = 't' then some '\t'
  else none

/-- The escape-sequence handler of the string parser, written over the
recursive continuation `recur` (the parser on the remaining input): `\u`
escapes with surrogate-pair recombination, or one of the fixed
two-character escapes. -/
def parseEscBody (recur : List Char → Option (List Char × List Char)) :
    List Char → Option (List Char × List Char)
  | [] => none
  | e :: r2 =>
    if e = 'u' then
      match r2 with
      | a :: b :: c2 :: d :: r3 =>
        (hexVal4 a b c2 d).bind (fun v =>
          if 0xD800 ≤ v ∧ v < 0xDC00 then
            match r3 with
            | x :: y :: e2 :: f :: g :: h :: r4 =>
              if x = '\\' ∧ y = 'u' then
                (hexVal4 e2 f g h).bind (fun w =>
                  if 0xDC00 ≤ w ∧ w < 0xE000 then
                    (recur r4).map (fun p =>
                      (Char.ofNat (0x10000 + (v - 0xD800) * 0x400 + (w - 0xDC00)) :: p.1, p.2))
                  else none)
              else none
            | _ => none
          else if 0xDC00 ≤ v ∧ v < 0xE000 then none
          else (recur r3).map (fun p => (Char.ofNat v :: p.1, p.2)))
      | _ => none
    else
      (unescape1 e).bind (fun ch => (recur r2).map (fun p => (ch :: p.1, p.2)))

/-- Parse the body of a JSON string after the opening quote, returning the
decoded characters and the input after the closing quote.  Strict mode:
raw control characters are rejected; `\uXXXX` escapes are decoded with
surrogate-pair recombination (model restriction: lone surrogates, which
Python strings can hold but Lean `Char` cannot, are rejected).  One unit
of fuel is spent per decoded character, so any fuel beyond the input
length is sufficient. -/
def parseStrAux : Nat → List Char → Option (List Char × List Char)
  | 0, _ => none
  | _ + 1, [] => none
  | fuel + 1, c :: r =>
    if c = '"' then some ([], r)
    else if c = '\\' then parseEscBody (fun t => parseStrAux fuel t) r
    else if 0x20 ≤ c.toNat then (parseStrAux fuel r).map (fun p => (c :: p.1, p.2))
    else none

/- ===== The JSON serializer (models json.dumps, default separators) ===== -/

/-- Fuelled serializer modelling `json.dumps` with its default separators
`", "` and `": "` and `ensure_ascii=True`; `none` when the fuel is smaller
than the value's nesting depth. -/
def dumpsF : Nat → JVal → Option (List Char)
  | 0, _ => none
  | _ + 1, .null => some ['n', 'u', 'l', 'l']
  | _ + 1, .bool true => some ['t', 'r', 'u', 'e']
  | _ + 1, .bool false => some ['f', 'a', 'l', 's', 'e']
  | _ + 1, .num i => some (intRepr i)
  | _ + 1, .str s => some (quoteStr s)
  | n + 1, .arr items =>
    (items.mapM (dumpsF n)).map (fun outs => '[' :: joinSep [',', ' '] outs ++ [']'])
  | n + 1, .obj fields =>
    (fields.mapM (fun kv => (dumpsF n kv.2).map (fun o => quoteStr kv.1 ++ ':' :: ' ' :: o))).map
      (fun outs => '{' :: joinSep [',', ' '] outs ++ ['}'])

/-- Fuelled `json.dumps` producing a `String`. -/
def json_dumps (fuel : Nat) (v : JVal) : Option String := (dumpsF fuel v).map String.mk

/-- Total `json.dumps` (fuel taken as the value's height), used by the SDK
only to stringify a JSON-RPC error object lacking a `message`. -/
def jsonDumpsTotal (v : JVal) : String := String.mk ((dumpsF (jheight v) v).getD [])

/- ===== The JSON parser (models strict json.loads) ===== -/

/-- JSON whitespace accepted between tokens by strict `json.loads`. -/
def isJsonWs (c : Char) : Bool := c = ' ' || c = '\t' || c = '\n' || c = '\r'

/-- Skip JSON whitespace. -/
def skipWs (cs : List Char) : List Char := cs.dropWhile isJsonWs

/-- What the fuelled parser is currently parsing: a value, the elements of a
non-empty array, or the members of a non-empty object. -/
inductive PMode where
  | val : PMode
  | elems : PMode
  | members : PMode

/-- Result of one fuelled-parser step, matching `PMode`. -/
inductive POut where
  | v (x : JVal) : POut
  | vs (xs : List JVal) : POut
  | fs (xs : List (String × JVal)) : POut

/-- Fuelled recursive-descent parser modelling strict `json.loads`.  In
`val` mode it parses one JSON value after optional whitespace; `elems` and
`members` parse the comma-separated insides of arrays and objects up to and
including the closing bracket.  One unit of fuel is spent per recursive
step, so any fuel beyond the input length is sufficient. -/
def parseF : Nat → PMode → List Char → Option (POut × List Char)
  | 0, _, _ => none
  | pf + 1, .val, cs =>
    match skipWs cs with
    | 'n' :: 'u' :: 'l' :: 'l' :: r => some (.v .null, r)
    | 't' :: 'r' :: 'u' :: 'e' :: r => some (.v (.bool true), r)
    | 'f' :: 'a' :: 'l' :: 's' :: 'e' :: r => some (.v (.bool false), r)
    | '"' :: r => (parseStrAux (r.length + 1) r).map (fun p => (.v (.str (String.mk p.1)), p.2))
    | '{' :: r =>
      (match skipWs r with
       | '}' :: r2 => some (.v (.obj []), r2)
       | r1 =>
         match parseF pf .members r1 with
         | some (.fs xs, r2) => some (.v (.obj xs), r2)
         | _ => none)
    | '[' :: r =>
      (match skipWs r with
       | ']' :: r2 => some (.v (.arr []), r2)
       | r1 =>
         match parseF pf .elems r1 with
         | some (.vs xs, r2) => some (.v (.arr xs), r2)
         | _ => none)
    | c :: r =>
      if c = '-' ∨ c.isDigit then (parseNumber (c :: r)).map (fun p => (.v (.num p.1), p.2))
      else none
    | [] => none
  | pf + 1, .elems, cs =>
    match parseF pf .val cs with
    | some (.v x, r) =>
      (match skipWs r with
       | ',' :: r2 =>
         (match parseF pf .elems r2 with
          | some (.vs xs, r3) => some (.vs (x :: xs), r3)
          | _ => none)
       | ']' :: r2 => some (.vs [x], r2)
       | _ => none)
    | _ => none
  | pf + 1, .members, cs =>
    match skipWs cs with
    | '"' :: r =>
      (match parseStrAux (r.length + 1) r with
       | some (k, r2) =>
         (match skipWs r2 with
          | ':' :: r3 =>
            (match parseF pf .val r3 with
             | some (.v x, r4) =>
               (match skipWs r4 with
                | ',' :: r5 =>
                  (match parseF pf .members r5 with
                   | some (.fs xs, r6) => some (.fs ((String.mk k, x) :: xs), r6)
                   | _ => none)
                | '}' :: r5 => some (.fs [(String.mk k, x)], r5)
                | _ => none)
             | _ => none)
          | _ => none)
       | none => none)
    | _ => none

/-- Strict `json.loads` over a character list: exactly one JSON value,
surrounded only by whitespace.  Model deviation from Python: objects with
duplicate keys keep every pair in order (Python keeps the last value);
no serialized output of a Python dict ever contains duplicate keys. -/
def jsonLoadsL (cs : List Char) : Option JVal :=
  match parseF (cs.length + 1) .val cs with
  | some (.v v, r) => if (skipWs r).isEmpty then some v else none
  | _ => none

/-- Strict `json.loads` on `String`. -/
def jsonLoads (s : String) : Option JVal := jsonLoadsL s.data

/- ===== The SDK transport layer (src/sdk/python/entrez_sdk.py) ===== -/

/-- Errors escaping `_request_payload`: `EntrezSDKError` with its message,
or an uncaught Python-level exception named by its class (raised by the
untyped `'error' in result` / subscript operations on non-dict envelopes). -/
inductive CallError where
  | sdk (msg : String) : CallError
  | py (kind : String) : CallError
deriving DecidableEq

/-- An HTTP response as the SDK consumes it: status, reason phrase, headers
and decoded body text. -/
structure HttpResponse where
  status : Nat
  reason : String
  headers : List (String × String)
  body : String

/-- The SDK's fixed `MCP-Protocol-Version` value (`EntrezSDK.__init__`). -/
def protocolVersion : String := "2025-11-25"

/-- The session id a freshly constructed client holds
(`self.session_id = None` in `EntrezSDK.__init__`). -/
def initialSessionId : Option String := none

/-- Case-insensitive header lookup, first match wins, as aiohttp's
`response.headers.get` behaves. -/
def getHeader (headers : List (String × String)) (name : String) : Option String :=
  (headers.find? (fun kv => lowerStr kv.1 == lowerStr name)).map (fun kv => kv.2)

/-- `EntrezSDK._build_headers`: fixed content-type, accept and protocol
version headers, plus the session header when a (truthy) session id is
held. -/
def buildHeaders (sessionId : Option String) : List (String × String) :=
  [("Content-Type", "application/json"),
   ("Accept", "application/json, text/event-stream"),
   ("MCP-Protocol-Version", protocolVersion)] ++
  (match sessionId with
   | some s => if s == "" then [] else [("Mcp-Session-Id", s)]
   | none => [])

/-- `EntrezSDK._extract_session_id`: store the `mcp-session-id` response
header if it is present and truthy (non-empty), else keep the old value. -/
def extractSessionId (sessionId : Option String) (resp : HttpResponse) : Option String :=
  match getHeader resp.headers "mcp-session-id" with
  | some v => if v == "" then sessionId else some v
  | none => sessionId

/-- Session id held after a client processes a list of responses in order. -/
def observeList (sessionId : Option String) (resps : List HttpResponse) : Option String :=
  resps.foldl extractSessionId sessionId

/-- `EntrezSDK._format_context`: bracket the stripped context unless it is
already bracketed. -/
def formatContext (context : String) : String :=
  let stripped := pyStripL context.data
  if headIs '[' stripped && lastIs ']' stripped then String.mk stripped
  else String.mk ('[' :: stripped ++ [']'])

/-- The error-sentinel test on one content block, as written inline in both
`_is_error_payload` and `_format_payload_error`: a dict block whose `type`
is the string `"text"` and whose `text` is a string that, stripped, starts
with the sentinel character. -/
def isSentinelBlock : JVal → Bool
  | .obj bfs =>
    (match List.lookup "type" bfs with
     | some (.str t) => t == "text"
     | _ => false) &&
    (match List.lookup "text" bfs with
     | some (.str s) => headIs '❌' (pyStripL s.data)
     | _ => false)
  | _ => false

/-- `EntrezSDK._is_error_payload`: the payload's `content` is a list
containing a sentinel block. -/
def isErrorPayload : JVal → Bool
  | .obj fs =>
    (match List.lookup "content" fs with
     | some (.arr blocks) => blocks.any isSentinelBlock
     | _ => false)
  | _ => false

/-- The loop of `_format_payload_error`: stripped text of the first
sentinel block, if any. -/
def sourceFirstSentinel : List JVal → Option String
  | [] => none
  | b :: rest =>
    if isSentinelBlock b then
      (match b with
       | .obj bfs =>
         (match List.lookup "text" bfs with
          | some (.str s) => some (pyStrip s)
          | _ => none)
       | _ => none)
    else sourceFirstSentinel rest

/-- The generator of `_format_payload_error`'s fallback: stripped `text` of
every dict block whose `text` is a string (regardless of its `type`). -/
def blockStrippedText : JVal → Option (List Char)
  | .obj bfs =>
    (match List.lookup "text" bfs with
     | some (.str s) => some (pyStripL s.data)
     | _ => none)
  | _ => none

/-- `EntrezSDK._format_payload_error`: the first sentinel block's stripped
text; else all dict blocks' stripped texts joined by single spaces and
stripped; else the literal `"Unknown error"`. -/
def formatPayloadError (payload : JVal) : String :=
  match payload with
  | .obj fs =>
    (match List.lookup "content" fs with
     | some (.arr blocks) =>
       (match sourceFirstSentinel blocks with
        | some t => t
        | none =>
          let combined := pyStripL (joinSep [' '] (blocks.filterMap blockStrippedText))
          if combined.isEmpty then "Unknown error" else String.mk combined)
     | _ => "Unknown error")
  | _ => "Unknown error"

/-- The `data:` lines collected from one SSE segment by
`_parse_sse_payload`: for each line of the segment whose stripped form has
the case-insensitive prefix `data:`, the part after the first colon with
all leading whitespace removed (`value.lstrip()`). -/
def sseDataLines (seg : List Char) : List (List Char) :=
  (pySplitlines seg).filterMap (fun line =>
    let stripped := pyStripL line
    if lowerStartsDataColon stripped then some (pyLstripL (afterColon stripped)) else none)

/-- The segments `_parse_sse_payload` iterates over: split the
carriage-return-free text on blank lines, strip each part, drop empties. -/
def sseSegments (text : String) : List (List Char) :=
  ((splitNN (text.data.filter (fun c => c != '\r'))).map pyStripL).filter
    (fun s => !s.isEmpty)

/-- The segment loop of `_parse_sse_payload`: first segment with a
non-empty collection of data lines whose newline-join parses as JSON wins;
otherwise the SSE error. -/
def sseLoop : List (List Char) → Except CallError JVal
  | [] => .error (.sdk "No JSON payload found in SSE response")
  | seg :: rest =>
    let dls := sseDataLines seg
    if dls.isEmpty then sseLoop rest
    else match jsonLoadsL (joinSep ['\n'] dls) with
      | some v => .ok v
      | none => sseLoop rest

/-- `EntrezSDK._parse_sse_payload`. -/
def parseSsePayload (text : String) : Except CallError JVal :=
  sseLoop (sseSegments text)

/-- `EntrezSDK._parse_response_text`: strip the body; empty decodes to an
empty object; otherwise strict JSON parse, falling back to SSE decoding. -/
def parseResponseText (text : String) : Except CallError JVal :=
  let trimmed := pyStripL text.data
  if trimmed.isEmpty then .ok (.obj [])
  else match jsonLoadsL trimmed with
    | some v => .ok v
    | none => parseSsePayload (String.mk trimmed)

/-- Python `needle in v` for a string needle against a decoded JSON value:
key membership for dicts, element equality for lists, substring for
strings, `TypeError` otherwise.  (String equality suffices for list
elements because the needle is a string.) -/
def pyInStr (needle : String) (v : JVal) : Except Unit Bool :=
  match v with
  | .obj fs => .ok (hasKey fs needle)
  | .arr xs => .ok (xs.any (fun x =>
      match x with
      | .str s => s == needle
      | _ => false))
  | .str s => .ok (hasSubstr needle.data s.data)
  | _ => .error ()

/-- Python `repr`, fuelled, modelled far enough to render the f-string of
the JSON-RPC error branch; best effort (string escaping inside `repr` is
not modelled), unreachable in every verified claim. -/
def pyReprF : Nat → JVal → String
  | 0, _ => ""
  | _ + 1, .null => "None"
  | _ + 1, .bool true => "True"
  | _ + 1, .bool false => "False"
  | _ + 1, .num i => intReprS i
  | _ + 1, .str s => "'" ++ s ++ "'"
  | n + 1, .arr items => "[" ++ String.mk (joinSep [',', ' '] (items.map (fun x => (pyReprF n x).data))) ++ "]"
  | n + 1, .obj fields =>
    "\x7b" ++ String.mk (joinSep [',', ' ']
      (fields.map (fun kv => ("'" ++ kv.1 ++ "': " ++ pyReprF n kv.2).data))) ++ "\x7d"

/-- Python `str(v)` as an f-string renders it. -/
def pyStr (v : JVal) : String :=
  match v with
  | .str s => s
  | .bool b => if b then "True" else "False"
  | .null => "None"
  | .num i => intReprS i
  | v => pyReprF (jheight v) v

/-- The JSON-RPC error branch of `_request_payload` (lines 190-192): the
error object's `message` if present, else the error object dumped; wrapped
as `"{label} MCP Error: {msg}"`.  Non-dict envelopes or error values make
the untyped subscript/attribute access raise. -/
def rpcErrorStage (label : String) (result : JVal) : Except CallError JVal :=
  match result with
  | .obj fs =>
    (match List.lookup "error" fs with
     | some (.obj efs) =>
       .error (.sdk (label ++ " MCP Error: " ++
         (match List.lookup "message" efs with
          | some m => pyStr m
          | none => jsonDumpsTotal (.obj efs))))
     | some _ => .error (.py "AttributeError")
     | none => .error (.py "KeyError"))
  | _ => .error (.py "TypeError")

/-- The result-reshaping tail of `_request_payload` (lines 199-212):
payloads carrying `structuredContent` are replaced by a copy of it, with
the original `content` attached (for a dict copy) or forming a singleton
dict (for a non-dict `structuredContent` when `content` exists). -/
def normalizePayload (payload : JVal) : JVal :=
  match payload with
  | .obj fs =>
    (match List.lookup "structuredContent" fs with
     | none => payload
     | some structured =>
       match structured, List.lookup "content" fs with
       | .obj sfs, some c => .obj (dictSet sfs "content" c)
       | .obj sfs, none => .obj sfs
       | _, some c => .obj [("content", c)]
       | s, none => s)
  | _ => payload

/-- The payload stage of `_request_payload` (lines 194-212): extract
`result` (`None` when absent or when the envelope is not a dict), fail on
a truthy dict payload carrying the error sentinel, else normalize. -/
def resultStage (label : String) (result : JVal) : Except CallError JVal :=
  let payload : JVal :=
    match result with
    | .obj fs => (List.lookup "result" fs).getD .null
    | _ => .null
  if payload.truthy && payload.isObj && isErrorPayload payload then
    .error (.sdk (label ++ " " ++ formatPayloadError payload))
  else .ok (normalizePayload payload)

/-- The envelope stage of `_request_payload` (line 190): a truthy envelope
containing `error` takes the JSON-RPC error branch; `in` on a truthy
non-container raises `TypeError`. -/
def envelopeStage (label : String) (result : JVal) : Except CallError JVal :=
  if result.truthy then
    match pyInStr "error" result with
    | .error _ => .error (.py "TypeError")
    | .ok true => rpcErrorStage label result
    | .ok false => resultStage label result
  else resultStage label result

/-- The body-processing of `_request_payload` after the session-id
extraction (lines 182-212): HTTP failure first, then decode, then the
envelope and payload stages. -/
def responseStage (label : String) (resp : HttpResponse) : Except CallError JVal :=
  if 400 ≤ resp.status then
    .error (.sdk (label ++ " HTTP " ++ String.mk (natRepr resp.status) ++ ": " ++
      (if resp.body == "" then resp.reason else resp.body)))
  else
    match parseResponseText resp.body with
    | .error e => .error e
    | .ok result => envelopeStage label result

/-- `EntrezSDK._request_payload` as a state transformer: from the held
session id and the HTTP response, the new session id (extracted before the
status check, line 180) and the call's outcome. -/
def requestPayload (context : String) (sessionId : Option String) (resp : HttpResponse) :
    Option String × Except CallError JVal :=
  (extractSessionId sessionId resp, responseStage (formatContext context) resp)

/-- The parameter cleaning of `EntrezSDK._call` (line 141): drop exactly
the `None`-valued keys. -/
def callArguments (params : List (String × JVal)) : List (String × JVal) :=
  params.filter (fun kv =>
    match kv.2 with
    | .null => false
    | _ => true)

/-- The `tools/call` params framed by `EntrezSDK._call` (lines 142-145). -/
def callFrame (toolName : String) (params : List (String × JVal)) : JVal :=
  .obj [("name", .str toolName), ("arguments", .obj (callArguments params))]

/- ===== Specification-side definitions (written from the claims' words,
to be compared with the source translations above) ===== -/

/-- Spec-side: the id supplied by one response's session header, when
present and non-empty. -/
def suppliedId (r : HttpResponse) : Option String :=
  match getHeader r.headers "mcp-session-id" with
  | some v => if v == "" then none else some v
  | none => none

/-- Spec-side: the most recently supplied session id in a list of
responses. -/
def lastSupplied (resps : List HttpResponse) : Option String :=
  resps.reverse.findSome? suppliedId

/-- Spec-side (claims C1 and C10): the trimmed text of a sentinel block —
a block of type `text` whose string text starts, trimmed, with the
sentinel marker. -/
def sentinelText : JVal → Option String
  | .obj bfs =>
    (match List.lookup "type" bfs, List.lookup "text" bfs with
     | some (.str t), some (.str s) =>
       if t == "text" && headIs '❌' (pyStripL s.data) then some (pyStrip s) else none
     | _, _ => none)
  | _ => none

/-- Spec-side: the first sentinel block's trimmed text in a content
array. -/
def claimFirstSentinel (blocks : List JVal) : Option String :=
  blocks.findSome? sentinelText

/-- Spec-side (claim C1): all text blocks' trimmed text joined by single
spaces. -/
def claimJoinedTexts (blocks : List JVal) : String :=
  String.mk (joinSep [' '] (blocks.filterMap (fun b =>
    match b with
    | .obj bfs =>
      (match List.lookup "type" bfs, List.lookup "text" bfs with
       | some (.str t), some (.str s) => if t == "text" then some (pyStripL s.data) else none
       | _, _ => none)
    | _ => none)))

/-- Spec-side (claim C1): the ApplicationError message cascade — first
sentinel's trimmed text, else the joined text blocks, else
`"Unknown error"`. -/
def claimMessage (payload : JVal) : String :=
  match payload with
  | .obj fs =>
    (match List.lookup "content" fs with
     | some (.arr blocks) =>
       (match claimFirstSentinel blocks with
        | some t => t
        | none => if claimJoinedTexts blocks == "" then "Unknown error" else claimJoinedTexts blocks)
     | _ => "Unknown error")
  | _ => "Unknown error"

/-- Spec-side (claim C2): the normalized value — a copy of
`structuredContent` when present, with `content` attached (overwriting) when
that too is present; the result unchanged when `structuredContent` is
absent. -/
def claimNormalize (pfs : List (String × JVal)) : JVal :=
  match List.lookup "structuredContent" pfs with
  | some (.obj sfs) =>
    (match List.lookup "content" pfs with
     | some c => .obj (dictSet sfs "content" c)
     | none => .obj sfs)
  | some s => s
  | none => .obj pfs

/-- One SSE segment's candidate payload, parameterised by how the value
after `data:` is cleaned: the claim's version strips exactly one leading
space, the amended version strips all leading whitespace. -/
def sseSegPayloadWith (valueOf : List Char → List Char) (seg : List Char) : Option JVal :=
  let dls := (pySplitlines seg).filterMap (fun line =>
    let stripped := pyStripL line
    if lowerStartsDataColon stripped then some (valueOf (afterColon stripped)) else none)
  if dls.isEmpty then none else jsonLoadsL (joinSep ['\n'] dls)

/-- Strip exactly one leading space, as claim C4 words the `data:` value
cleaning. -/
def dropOneSpace : List Char → List Char
  | ' ' :: r => r
  | r => r

/-- Claim C4's decoding algorithm, exactly as worded: segments on
blank-line boundaries, `data:` lines collected case-insensitively with one
leading space stripped, first segment whose joined lines parse wins. -/
def sseDecodeClaimC4 (text : String) : Except CallError JVal :=
  match (sseSegments text).findSome? (sseSegPayloadWith dropOneSpace) with
  | some v => .ok v
  | none => .error (.sdk "No JSON payload found in SSE response")

/-- The amended claim C4 algorithm: identical, but all leading whitespace
is stripped from the value after the colon (Python `str.lstrip`). -/
def sseDecodeAmended (text : String) : Except CallError JVal :=
  match (sseSegments text).findSome? (sseSegPayloadWith pyLstripL) with
  | some v => .ok v
  | none => .error (.sdk "No JSON payload found in SSE response")

/-- An SSE stream carrying the given lines, formatted as claim C5 words
it: each line prefixed `data: ` and newline-terminated, then a blank
line. -/
def sseStream (lines : List (List Char)) : String :=
  String.mk ((lines.map (fun l => ['d', 'a', 't', 'a', ':', ' '] ++ l ++ ['\n'])).foldr
    (fun a b => a ++ b) [] ++ ['\n'])

/-- The boundary condition after a serialized number: the next character,
if any, must not extend the number literal. -/
def numBoundary (cs : List Char) : Prop :=
  ∀ c, cs.head? = some c → c.isDigit = false ∧ c ≠ '.' ∧ c ≠ 'e' ∧ c ≠ 'E'

/-- The separator context a serialized value may be followed by inside a
larger serialized document: nothing, or a comma or closing bracket. -/
def sepOkB : List Char → Bool
  | [] => true
  | c :: _ => c = ',' || c = ']' || c = '}'

/- ===== Theorems ===== -/

/-- Helper: `_extract_session_id` keeps the old id exactly when the
response supplies none (no header, or an empty one), and stores the
supplied id otherwise. -/
theorem extractSessionId_eq_suppliedId (sessionId : Option String) (resp : HttpResponse) :
    extractSessionId sessionId resp =
      match suppliedId resp with
      | some v => some v
      | none => sessionId := by
  unfold extractSessionId suppliedId
  cases getHeader resp.headers "mcp-session-id" with
  | none => rfl
  | some v =>
    by_cases hv : v == ""
    · simp [hv]
    · simp [hv]

/-- Helper: folding `_extract_session_id` over a list of responses yields
the most recently supplied id, or the initial one when none was supplied. -/
theorem observeList_eq_lastSupplied (resps : List HttpResponse) (sessionId : Option String) :
    observeList sessionId resps =
      match lastSupplied resps with
      | some v => some v
      | none => sessionId := by
  induction resps generalizing sessionId with
  | nil => rfl
  | cons r rs ih =>
    show observeList (extractSessionId sessionId r) rs = _
    rw [ih]
    have hlast : lastSupplied (r :: rs) = (lastSupplied rs).or (suppliedId r) := by
      unfold lastSupplied
      rw [List.reverse_cons, List.findSome?_append]
      have h1 : List.findSome? suppliedId [r] = suppliedId r := by
        cases h : suppliedId r <;> simp [List.findSome?_cons, h]
      rw [h1]
    rw [hlast, extractSessionId_eq_suppliedId]
    cases lastSupplied rs with
    | some v => rfl
    | none =>
      cases suppliedId r with
      | some v => rfl
      | none => rfl

/-- C7 (counterexample): the claim says the session id, once set, is
immutable for the life of the client.  In the code
(`_extract_session_id`), a later response carrying a session header
overwrites it: after observing a response supplying `"a"` and then one
supplying `"b"`, the held id is `"b"`, not the first-set `"a"`. -/
theorem c7_session_overwrite_counterexample :
    observeList initialSessionId
        [⟨200, "OK", [("mcp-session-id", "a")], ""⟩] = some "a" ∧
    observeList initialSessionId
        [⟨200, "OK", [("mcp-session-id", "a")], ""⟩,
         ⟨200, "OK", [("mcp-session-id", "b")], ""⟩] = some "b" ∧
    some "b" ≠ (some "a" : Option String) :=
  ⟨rfl, rfl, by decide⟩

/-- C7 (amended): the session id is absent at construction; a response
supplying no non-empty session header leaves it unchanged; a response
supplying a non-empty session header sets it, overwriting any previous
value (rather than being immutable once set). -/
theorem c7_session_lifecycle_amended :
    initialSessionId = none ∧
    (∀ (sessionId : Option String) (resp : HttpResponse),
      suppliedId resp = none → extractSessionId sessionId resp = sessionId) ∧
    (∀ (sessionId : Option String) (resp : HttpResponse) (v : String),
      suppliedId resp = some v → extractSessionId sessionId resp = some v) := by
  refine ⟨rfl, ?_, ?_⟩
  · intro sessionId resp h
    rw [extractSessionId_eq_suppliedId, h]
  · intro sessionId resp v h
    rw [extractSessionId_eq_suppliedId, h]

/-- Witness for the amended C7 at concrete inputs. -/
theorem c7_session_lifecycle_amended_witness :
    extractSessionId (some "a") ⟨200, "OK", [("x", "y")], ""⟩ = some "a" ∧
    extractSessionId (some "a") ⟨200, "OK", [("mcp-session-id", "")], ""⟩ = some "a" ∧
    extractSessionId (some "a") ⟨200, "OK", [("Mcp-Session-Id", "b")], ""⟩ = some "b" :=
  ⟨c7_session_lifecycle_amended.2.1 (some "a") ⟨200, "OK", [("x", "y")], ""⟩ rfl,
   c7_session_lifecycle_amended.2.1 (some "a") ⟨200, "OK", [("mcp-session-id", "")], ""⟩ rfl,
   c7_session_lifecycle_amended.2.2 (some "a") ⟨200, "OK", [("Mcp-Session-Id", "b")], ""⟩ "b" rfl⟩

/-- C8 (counterexample): the claim says that once a response supplies a
session id, every subsequent request carries a session header with that
value.  After a first response supplies `"a"` and a later one supplies
`"b"`, the next request's headers carry `"b"` and not the first-supplied
`"a"`. -/
theorem c8_session_header_counterexample :
    suppliedId ⟨200, "OK", [("mcp-session-id", "a")], ""⟩ = some "a" ∧
    ("Mcp-Session-Id", "a") ∉
      buildHeaders (observeList initialSessionId
        [⟨200, "OK", [("mcp-session-id", "a")], ""⟩,
         ⟨200, "OK", [("mcp-session-id", "b")], ""⟩]) :=
  ⟨rfl, by decide⟩

/-- C8 (amended): every request carries the fixed `Content-Type`,
`Accept` and protocol-version headers; while a non-empty session id is
held the request also carries it in the session header; the id held after
a sequence of responses is the most recently supplied one; and a freshly
constructed client holds none, so its requests carry no session header. -/
theorem c8_session_headers_amended :
    (∀ sessionId : Option String,
      ("Content-Type", "application/json") ∈ buildHeaders sessionId ∧
      ("Accept", "application/json, text/event-stream") ∈ buildHeaders sessionId ∧
      ("MCP-Protocol-Version", protocolVersion) ∈ buildHeaders sessionId) ∧
    (∀ s : String, s ≠ "" → ("Mcp-Session-Id", s) ∈ buildHeaders (some s)) ∧
    (∀ (resps : List HttpResponse) (sessionId : Option String),
      observeList sessionId resps =
        match lastSupplied resps with
        | some v => some v
        | none => sessionId) ∧
    (∀ s : String, ("Mcp-Session-Id", s) ∉ buildHeaders initialSessionId) := by
  refine ⟨?_, ?_, ?_, ?_⟩
  · intro sessionId
    refine ⟨?_, ?_, ?_⟩ <;> simp [buildHeaders]
  · intro s hs
    have hbeq : (s == "") = false := by
      simpa using hs
    simp [buildHeaders, hbeq]
  · exact fun resps sessionId => observeList_eq_lastSupplied resps sessionId
  · intro s
    simp [buildHeaders, initialSessionId]

/-- Witness for the amended C8 at concrete inputs. -/
theorem c8_session_headers_amended_witness :
    ("Mcp-Session-Id", "abc") ∈ buildHeaders (some "abc") ∧
    observeList none [⟨200, "OK", [("mcp-session-id", "abc")], ""⟩] = some "abc" :=
  ⟨c8_session_headers_amended.2.1 "abc" (by decide),
   (c8_session_headers_amended.2.2.1 [⟨200, "OK", [("mcp-session-id", "abc")], ""⟩] none).trans rfl⟩

/-- Helper: the HTTP-status branch of `_request_payload`, shared by the
claims about status handling. -/
theorem requestPayload_status_error (context : String) (sessionId : Option String)
    (resp : HttpResponse) (h : 400 ≤ resp.status) :
    (requestPayload context sessionId resp).2 =
      .error (.sdk (formatContext context ++ " HTTP " ++ String.mk (natRepr resp.status) ++
        ": " ++ (if resp.body == "" then resp.reason else resp.body))) := by
  show responseStage (formatContext context) resp = _
  unfold responseStage
  rw [if_pos h]

/-- C3: any response with HTTP status at least 400 fails with a transport
error carrying the status and the raw body (or the status reason for an
empty body), before the body is parsed — the error is produced for every
body, parseable or not. -/
theorem c3_http_status_error (context : String) (sessionId : Option String)
    (resp : HttpResponse) (h : 400 ≤ resp.status) :
    (requestPayload context sessionId resp).2 =
      .error (.sdk (formatContext context ++ " HTTP " ++ String.mk (natRepr resp.status) ++
        ": " ++ (if resp.body == "" then resp.reason else resp.body))) :=
  requestPayload_status_error context sessionId resp h

/-- Witness for C3: a 404 with an unparseable body, and one with an empty
body. -/
theorem c3_http_status_error_witness :
    (requestPayload "x" none ⟨404, "Not Found", [], "junk("⟩).2 =
      .error (.sdk "[x] HTTP 404: junk(") ∧
    (requestPayload "x" none ⟨404, "Not Found", [], ""⟩).2 =
      .error (.sdk "[x] HTTP 404: Not Found") :=
  ⟨c3_http_status_error "x" none ⟨404, "Not Found", [], "junk("⟩ (by decide),
   c3_http_status_error "x" none ⟨404, "Not Found", [], ""⟩ (by decide)⟩

/-- C9: the session header is inspected before the HTTP-status check, so
an invoke failing on status still stores a session id supplied by the
failing response, and the next request's headers echo it. -/
theorem c9_session_on_http_error (context : String) (sessionId : Option String)
    (resp : HttpResponse) (v : String) (hst : 400 ≤ resp.status)
    (hhdr : getHeader resp.headers "mcp-session-id" = some v) (hv : v ≠ "") :
    (requestPayload context sessionId resp).1 = some v ∧
    (∃ m, (requestPayload context sessionId resp).2 = .error (.sdk m)) ∧
    ("Mcp-Session-Id", v) ∈ buildHeaders (requestPayload context sessionId resp).1 := by
  have hbeq : (v == "") = false := by simpa using hv
  have h1 : (requestPayload context sessionId resp).1 = some v := by
    show extractSessionId sessionId resp = some v
    unfold extractSessionId
    rw [hhdr]
    simp [hbeq]
  refine ⟨h1, ⟨_, requestPayload_status_error context sessionId resp hst⟩, ?_⟩
  rw [h1]
  simp [buildHeaders, hbeq]

/-- Witness for C9: a 404 response carrying a session header. -/
theorem c9_session_on_http_error_witness :
    (requestPayload "x" none ⟨404, "Not Found", [("mcp-session-id", "s1")], "b"⟩).1 =
      some "s1" ∧
    (∃ m, (requestPayload "x" none
      ⟨404, "Not Found", [("mcp-session-id", "s1")], "b"⟩).2 = .error (.sdk m)) ∧
    ("Mcp-Session-Id", "s1") ∈ buildHeaders
      (requestPayload "x" none ⟨404, "Not Found", [("mcp-session-id", "s1")], "b"⟩).1 :=
  c9_session_on_http_error "x" none ⟨404, "Not Found", [("mcp-session-id", "s1")], "b"⟩
    "s1" (by decide) rfl (by decide)

/-- Helper: a key absent from an association list looks up to nothing. -/
theorem lookup_eq_none_of_not_mem_keys (l : List (String × JVal)) (k : String)
    (h : k ∉ l.map Prod.fst) : List.lookup k l = none := by
  induction l with
  | nil => rfl
  | cons kv rest ih =>
    simp only [List.map_cons, List.mem_cons, not_or] at h
    have hne : (k == kv.1) = false := by
      simpa using h.1
    obtain ⟨k', v'⟩ := kv
    simp only [List.lookup]
    rw [hne]
    exact ih h.2

/-- Helper: the characterization of `_call`'s parameter cleaning at the
level of key lookups, for Python-dict (unique-key) parameter mappings. -/
theorem lookup_callArguments (params : List (String × JVal))
    (hnd : (params.map Prod.fst).Nodup) (k : String) :
    List.lookup k (callArguments params) =
      match List.lookup k params with
      | some JVal.null => none
      | some v => some v
      | none => none := by
  induction params with
  | nil => rfl
  | cons kv rest ih =>
    obtain ⟨k', v'⟩ := kv
    rw [List.map_cons, List.nodup_cons] at hnd
    obtain ⟨hk', hrest⟩ := hnd
    by_cases hkk : k = k'
    · subst hkk
      have hbeq : (k == k) = true := by simp
      cases v' with
      | null =>
        show List.lookup k (callArguments rest) = _
        rw [lookup_eq_none_of_not_mem_keys (callArguments rest) k ?notmem]
        · simp [List.lookup, hbeq]
        case notmem =>
          intro hmem
          exact hk' (((List.filter_sublist rest).map Prod.fst).mem hmem)
      | bool b =>
        show List.lookup k ((k, JVal.bool b) :: callArguments rest) = _
        simp [List.lookup, hbeq]
      | num i =>
        show List.lookup k ((k, JVal.num i) :: callArguments rest) = _
        simp [List.lookup, hbeq]
      | str s =>
        show List.lookup k ((k, JVal.str s) :: callArguments rest) = _
        simp [List.lookup, hbeq]
      | arr items =>
        show List.lookup k ((k, JVal.arr items) :: callArguments rest) = _
        simp [List.lookup, hbeq]
      | obj fields =>
        show List.lookup k ((k, JVal.obj fields) :: callArguments rest) = _
        simp [List.lookup, hbeq]
    · have hbeq : (k == k') = false := by simpa using hkk
      have htail : List.lookup k ((k', v') :: rest) = List.lookup k rest := by
        simp [List.lookup, hbeq]
      rw [htail]
      cases v' with
      | null => exact ih hrest
      | bool b =>
        show List.lookup k ((k', JVal.bool b) :: callArguments rest) = _
        rw [show List.lookup k ((k', JVal.bool b) :: callArguments rest) =
          List.lookup k (callArguments rest) by simp [List.lookup, hbeq]]
        exact ih hrest
      | num i =>
        show List.lookup k ((k', JVal.num i) :: callArguments rest) = _
        rw [show List.lookup k ((k', JVal.num i) :: callArguments rest) =
          List.lookup k (callArguments rest) by simp [List.lookup, hbeq]]
        exact ih hrest
      | str s =>
        show List.lookup k ((k', JVal.str s) :: callArguments rest) = _
        rw [show List.lookup k ((k', JVal.str s) :: callArguments rest) =
          List.lookup k (callArguments rest) by simp [List.lookup, hbeq]]
        exact ih hrest
      | arr items =>
        show List.lookup k ((k', JVal.arr items) :: callArguments rest) = _
        rw [show List.lookup k ((k', JVal.arr items) :: callArguments rest) =
          List.lookup k (callArguments rest) by simp [List.lookup, hbeq]]
        exact ih hrest
      | obj fields =>
        show List.lookup k ((k', JVal.obj fields) :: callArguments rest) = _
        rw [show List.lookup k ((k', JVal.obj fields) :: callArguments rest) =
          List.lookup k (callArguments rest) by simp [List.lookup, hbeq]]
        exact ih hrest

/-- C6: exactly the `None`-valued keys are omitted from the transmitted
arguments; every other binding, including `false`, `0` and `""`, is
preserved unchanged; and the framed `tools/call` params carry exactly the
cleaned mapping as `arguments`. -/
theorem c6_param_cleaning (toolName : String) (params : List (String × JVal))
    (hnd : (params.map Prod.fst).Nodup) (k : String) :
    (List.lookup k params = some JVal.null →
      List.lookup k (callArguments params) = none) ∧
    (∀ v, List.lookup k params = some v → v ≠ JVal.null →
      List.lookup k (callArguments params) = some v) ∧
    (List.lookup k params = none → List.lookup k (callArguments params) = none) ∧
    (match callFrame toolName params with
     | .obj l => List.lookup "arguments" l
     | _ => none) = some (.obj (callArguments params)) := by
  refine ⟨?_, ?_, ?_, rfl⟩
  · intro h
    rw [lookup_callArguments params hnd k, h]
  · intro v h hv
    rw [lookup_callArguments params hnd k, h]
    cases v with
    | null => exact absurd rfl hv
    | bool b => rfl
    | num i => rfl
    | str s => rfl
    | arr items => rfl
    | obj fields => rfl
  · intro h
    rw [lookup_callArguments params hnd k, h]

/-- Witness for C6: a `None` parameter is dropped while `false`, `0` and
`""` survive unchanged. -/
theorem c6_param_cleaning_witness :
    List.lookup "a" (callArguments
      [("a", JVal.null), ("b", JVal.bool false), ("c", JVal.num 0), ("d", JVal.str "")]) =
      none ∧
    List.lookup "b" (callArguments
      [("a", JVal.null), ("b", JVal.bool false), ("c", JVal.num 0), ("d", JVal.str "")]) =
      some (JVal.bool false) ∧
    List.lookup "c" (callArguments
      [("a", JVal.null), ("b", JVal.bool false), ("c", JVal.num 0), ("d", JVal.str "")]) =
      some (JVal.num 0) ∧
    List.lookup "d" (callArguments
      [("a", JVal.null), ("b", JVal.bool false), ("c", JVal.num 0), ("d", JVal.str "")]) =
      some (JVal.str "") :=
  ⟨(c6_param_cleaning "t"
      [("a", JVal.null), ("b", JVal.bool false), ("c", JVal.num 0), ("d", JVal.str "")]
      (by decide) "a").1 rfl,
   (c6_param_cleaning "t"
      [("a", JVal.null), ("b", JVal.bool false), ("c", JVal.num 0), ("d", JVal.str "")]
      (by decide) "b").2.1 (JVal.bool false) rfl (fun h => JVal.noConfusion h),
   (c6_param_cleaning "t"
      [("a", JVal.null), ("b", JVal.bool false), ("c", JVal.num 0), ("d", JVal.str "")]
      (by decide) "c").2.1 (JVal.num 0) rfl (fun h => JVal.noConfusion h),
   (c6_param_cleaning "t"
      [("a", JVal.null), ("b", JVal.bool false), ("c", JVal.num 0), ("d", JVal.str "")]
      (by decide) "d").2.1 (JVal.str "") rfl (fun h => JVal.noConfusion h)⟩

/-- Helper: a block failing the sentinel test contributes no spec-side
sentinel text. -/
theorem sentinelText_eq_none_of_not_sentinel (b : JVal) (hb : isSentinelBlock b = false) :
    sentinelText b = none := by
  cases b with
  | obj bfs =>
    simp only [sentinelText]
    cases h1 : List.lookup "type" bfs with
    | none => rfl
    | some tv =>
      cases h2 : List.lookup "text" bfs with
      | none => cases tv <;> rfl
      | some sv =>
        cases tv with
        | str t =>
          cases sv with
          | str s =>
            simp only [isSentinelBlock, h1, h2] at hb
            simp only [Bool.and_eq_false_iff] at hb
            rcases hb with hb | hb <;> simp [hb]
          | null => rfl
          | bool x => rfl
          | num i => rfl
          | arr l => rfl
          | obj l => rfl
        | null => cases sv <;> rfl
        | bool x => cases sv <;> rfl
        | num i => cases sv <;> rfl
        | arr l => cases sv <;> rfl
        | obj l => cases sv <;> rfl
  | null => rfl
  | bool x => rfl
  | num i => rfl
  | str s => rfl
  | arr l => rfl

/-- Helper: a block passing the sentinel test is a dict of type `text`
whose string text yields the spec-side sentinel text. -/
theorem sentinelText_of_sentinel (b : JVal) (hb : isSentinelBlock b = true) :
    ∃ bfs s, b = .obj bfs ∧ List.lookup "text" bfs = some (.str s) ∧
      sentinelText b = some (pyStrip s) := by
  cases b with
  | obj bfs =>
    simp only [isSentinelBlock] at hb
    cases h1 : List.lookup "type" bfs with
    | none => rw [h1] at hb; exact absurd hb (by simp)
    | some tv =>
      cases h2 : List.lookup "text" bfs with
      | none =>
        rw [h1, h2] at hb
        cases tv <;> exact absurd hb (by simp)
      | some sv =>
        rw [h1, h2] at hb
        cases tv with
        | str t =>
          cases sv with
          | str s =>
            simp only [Bool.and_eq_true] at hb
            refine ⟨bfs, s, rfl, h2, ?_⟩
            simp only [sentinelText, h1, h2]
            rw [if_pos]
            simp only [Bool.and_eq_true]
            exact ⟨hb.1, hb.2⟩
          | null => exact absurd hb (by simp)
          | bool x => exact absurd hb (by simp)
          | num i => exact absurd hb (by simp)
          | arr l => exact absurd hb (by simp)
          | obj l => exact absurd hb (by simp)
        | null => cases sv <;> exact absurd hb (by simp)
        | bool x => cases sv <;> exact absurd hb (by simp)
        | num i => cases sv <;> exact absurd hb (by simp)
        | arr l => cases sv <;> exact absurd hb (by simp)
        | obj l => cases sv <;> exact absurd hb (by simp)
  | null => exact absurd hb (by simp [isSentinelBlock])
  | bool x => exact absurd hb (by simp [isSentinelBlock])
  | num i => exact absurd hb (by simp [isSentinelBlock])
  | str s => exact absurd hb (by simp [isSentinelBlock])
  | arr l => exact absurd hb (by simp [isSentinelBlock])

/-- Helper: the first-sentinel loop of `_format_payload_error` computes the
spec-side first sentinel. -/
theorem sourceFirstSentinel_eq_claim (blocks : List JVal) :
    sourceFirstSentinel blocks = claimFirstSentinel blocks := by
  induction blocks with
  | nil => rfl
  | cons b rest ih =>
    rw [claimFirstSentinel, List.findSome?_cons]
    show (if isSentinelBlock b then _ else sourceFirstSentinel rest) = _
    cases hb : isSentinelBlock b with
    | true =>
      obtain ⟨bfs, s, hbeq, htext, hst⟩ := sentinelText_of_sentinel b hb
      rw [hst, if_pos rfl]
      subst hbeq
      show (match List.lookup "text" bfs with
            | some (.str s) => some (pyStrip s)
            | _ => none) = some (pyStrip s)
      rw [htext]
    | false =>
      rw [sentinelText_eq_none_of_not_sentinel b hb, if_neg (by simp)]
      exact ih.trans rfl

/-- Helper: when some block passes the sentinel test, the spec-side first
sentinel exists. -/
theorem claimFirstSentinel_isSome (blocks : List JVal)
    (ha : blocks.any isSentinelBlock = true) :
    ∃ t, claimFirstSentinel blocks = some t := by
  induction blocks with
  | nil => exact absurd ha (by simp)
  | cons b rest ih =>
    rw [claimFirstSentinel, List.findSome?_cons]
    cases hb : isSentinelBlock b with
    | true =>
      obtain ⟨bfs, s, hbeq, htext, hst⟩ := sentinelText_of_sentinel b hb
      rw [hst]
      exact ⟨pyStrip s, rfl⟩
    | false =>
      rw [sentinelText_eq_none_of_not_sentinel b hb]
      rw [List.any_cons, hb, Bool.false_or] at ha
      exact ih ha

/-- Helper: on an error payload, `_format_payload_error` returns the first
sentinel block's trimmed text — the fallback branches are not taken. -/
theorem formatPayloadError_first_sentinel (fs : List (String × JVal)) (blocks : List JVal)
    (hc : List.lookup "content" fs = some (.arr blocks))
    (ha : blocks.any isSentinelBlock = true) :
    ∃ t, claimFirstSentinel blocks = some t ∧
      formatPayloadError (.obj fs) = t ∧ claimMessage (.obj fs) = t := by
  obtain ⟨t, hfirst⟩ := claimFirstSentinel_isSome blocks ha
  refine ⟨t, hfirst, ?_, ?_⟩
  · simp only [formatPayloadError, hc, sourceFirstSentinel_eq_claim, hfirst]
  · simp only [claimMessage, hc, hfirst]

/-- C10: whenever the sentinel check `_is_error_payload` succeeds, the
formatter `_format_payload_error` returns the trimmed text of the first
sentinel block; its joined-text and `"Unknown error"` fallbacks are never
the result, so they are unreachable in the pipeline's failing branch,
which calls the formatter only after the check succeeds. -/
theorem c10_formatter_first_sentinel (fs : List (String × JVal))
    (hsent : isErrorPayload (.obj fs) = true) :
    ∃ blocks t, List.lookup "content" fs = some (.arr blocks) ∧
      claimFirstSentinel blocks = some t ∧ formatPayloadError (.obj fs) = t := by
  have hc : ∃ blocks, List.lookup "content" fs = some (.arr blocks) ∧
      blocks.any isSentinelBlock = true := by
    simp only [isErrorPayload] at hsent
    cases h1 : List.lookup "content" fs with
    | none => rw [h1] at hsent; exact absurd hsent (by simp)
    | some cv =>
      rw [h1] at hsent
      cases cv with
      | arr blocks => exact ⟨blocks, rfl, hsent⟩
      | null => exact absurd hsent (by simp)
      | bool x => exact absurd hsent (by simp)
      | num i => exact absurd hsent (by simp)
      | str s => exact absurd hsent (by simp)
      | obj l => exact absurd hsent (by simp)
  obtain ⟨blocks, hc, ha⟩ := hc
  obtain ⟨t, hfirst, hfmt, _⟩ := formatPayloadError_first_sentinel fs blocks hc ha
  exact ⟨blocks, t, hc, hfirst, hfmt⟩

/-- Witness for C10 at a concrete error payload. -/
theorem c10_formatter_first_sentinel_witness :
    ∃ blocks t,
      List.lookup "content"
        [("content", JVal.arr [JVal.obj [("type", JVal.str "text"),
          ("text", JVal.str " ❌ boom ")]])] = some (.arr blocks) ∧
      claimFirstSentinel blocks = some t ∧
      formatPayloadError (.obj [("content", JVal.arr [JVal.obj [("type", JVal.str "text"),
        ("text", JVal.str " ❌ boom ")]])]) = t :=
  c10_formatter_first_sentinel
    [("content", JVal.arr [JVal.obj [("type", JVal.str "text"),
      ("text", JVal.str " ❌ boom ")]])] rfl

/-- Helper: for a 2xx response whose body decodes to a dict envelope
without an `error` key, the pipeline reaches the result stage. -/
theorem responseStage_to_resultStage (label : String) (resp : HttpResponse)
    (efs : List (String × JVal)) (hst : resp.status < 400)
    (hparse : parseResponseText resp.body = .ok (.obj efs))
    (herr : hasKey efs "error" = false) :
    responseStage label resp = resultStage label (.obj efs) := by
  unfold responseStage
  rw [if_neg (by omega), hparse]
  unfold envelopeStage
  cases ht : JVal.truthy (.obj efs) with
  | false => simp [ht]
  | true =>
    simp only [ht, if_true, pyInStr, herr]

/-- Helper: the result stage fails with the formatted sentinel message on
an error payload. -/
theorem resultStage_sentinel_error (label : String) (efs pfs : List (String × JVal))
    (hres : List.lookup "result" efs = some (.obj pfs))
    (hsent : isErrorPayload (.obj pfs) = true) :
    resultStage label (.obj efs) =
      .error (.sdk (label ++ " " ++ formatPayloadError (.obj pfs))) := by
  have hne : pfs ≠ [] := by
    intro h
    subst h
    exact absurd hsent (by simp [isErrorPayload])
  have htruthy : JVal.truthy (.obj pfs) = true := by
    simp [JVal.truthy, hne]
  unfold resultStage
  simp only [hres, Option.getD_some, htruthy, JVal.isObj, hsent, Bool.and_true,
    Bool.true_and, if_true]

/-- Helper: an error payload has a content array with a sentinel block. -/
theorem isErrorPayload_elim (fs : List (String × JVal))
    (hsent : isErrorPayload (.obj fs) = true) :
    ∃ blocks, List.lookup "content" fs = some (.arr blocks) ∧
      blocks.any isSentinelBlock = true := by
  simp only [isErrorPayload] at hsent
  cases h1 : List.lookup "content" fs with
  | none => rw [h1] at hsent; exact absurd hsent (by simp)
  | some cv =>
    rw [h1] at hsent
    cases cv with
    | arr blocks => exact ⟨blocks, rfl, hsent⟩
    | null => exact absurd hsent (by simp)
    | bool x => exact absurd hsent (by simp)
    | num i => exact absurd hsent (by simp)
    | str s => exact absurd hsent (by simp)
    | obj l => exact absurd hsent (by simp)

/-- C1: a 2xx response whose decoded envelope is a dict without an `error`
field and whose extracted result is a dict containing an error-sentinel
text block fails with the SDK's application error; the message appended to
the bracketed label is the claim's cascade (first sentinel's trimmed text,
else the joined text blocks, else `"Unknown error"`), which here resolves
to the first sentinel's trimmed text. -/
theorem c1_sentinel_error (context : String) (sessionId : Option String)
    (resp : HttpResponse) (efs pfs : List (String × JVal))
    (h2a : 200 ≤ resp.status) (h2b : resp.status < 300)
    (hparse : parseResponseText resp.body = .ok (.obj efs))
    (herr : hasKey efs "error" = false)
    (hres : List.lookup "result" efs = some (.obj pfs))
    (hsent : isErrorPayload (.obj pfs) = true) :
    (requestPayload context sessionId resp).2 =
      .error (.sdk (formatContext context ++ " " ++ claimMessage (.obj pfs))) := by
  show responseStage (formatContext context) resp = _
  rw [responseStage_to_resultStage (formatContext context) resp efs (by omega) hparse herr]
  rw [resultStage_sentinel_error (formatContext context) efs pfs hres hsent]
  obtain ⟨blocks, hc, ha⟩ := isErrorPayload_elim pfs hsent
  obtain ⟨t, _, hfmt, hclaim⟩ := formatPayloadError_first_sentinel pfs blocks hc ha
  rw [hfmt, hclaim]

/-- Witness for C1: the spec's own example envelope, whose sentinel block
text is `"❌ Invalid database: invalid_database"`. -/
theorem c1_sentinel_error_witness :
    (requestPayload "fetch" none
      ⟨200, "OK", [],
        "\x7b\"jsonrpc\": \"2.0\", \"id\": 1, \"result\": \x7b\"content\": [\x7b\"type\": \"text\", \"text\": \"❌ Invalid database: invalid_database\"\x7d]\x7d\x7d"⟩).2 =
      .error (.sdk "[fetch] ❌ Invalid database: invalid_database") :=
  c1_sentinel_error "fetch" none
    ⟨200, "OK", [],
      "\x7b\"jsonrpc\": \"2.0\", \"id\": 1, \"result\": \x7b\"content\": [\x7b\"type\": \"text\", \"text\": \"❌ Invalid database: invalid_database\"\x7d]\x7d\x7d"⟩
    [("jsonrpc", JVal.str "2.0"), ("id", JVal.num 1),
     ("result", JVal.obj [("content", JVal.arr [JVal.obj [("type", JVal.str "text"),
       ("text", JVal.str "❌ Invalid database: invalid_database")]])])]
    [("content", JVal.arr [JVal.obj [("type", JVal.str "text"),
      ("text", JVal.str "❌ Invalid database: invalid_database")]])]
    (by decide) (by decide) rfl rfl rfl rfl

/-- Helper: after `dictSet`, the set key looks up to the new value. -/
theorem lookup_dictSet_self (sfs : List (String × JVal)) (k : String) (v : JVal) :
    List.lookup k (dictSet sfs k v) = some v := by
  induction sfs with
  | nil => simp [dictSet, hasKey, List.lookup]
  | cons kv rest ih =>
    obtain ⟨k', v'⟩ := kv
    by_cases hk : k' = k
    · subst hk
      have hhead : hasKey ((k', v') :: rest) k' = true := by simp [hasKey]
      simp [dictSet, hhead, List.lookup]
    · have hbeq : (k' == k) = false := by simpa using hk
      have hbeq2 : (k == k') = false := by simpa using (Ne.symm hk)
      cases hrest : hasKey rest k with
      | true =>
        have hh : hasKey ((k', v') :: rest) k = true := by
          simp [hasKey] at hrest ⊢
          exact Or.inr hrest
        simp only [dictSet, hh, if_true, List.map_cons, hbeq, if_false, List.lookup,
          hbeq2]
        have := ih
        rw [dictSet, if_pos hrest] at this
        exact this
      | false =>
        have hh : hasKey ((k', v') :: rest) k = false := by
          simp [hasKey] at hrest ⊢
          exact ⟨hk, hrest⟩
        simp only [dictSet, hh, if_false, List.cons_append, List.lookup, hbeq2]
        have := ih
        rw [dictSet, if_neg (by simp [hrest])] at this
        exact this

/-- Helper: lookup past a matching head. -/
theorem lookup_cons_self (k : String) (v : JVal) (l : List (String × JVal)) :
    List.lookup k ((k, v) :: l) = some v := by
  simp [List.lookup]

/-- Helper: lookup past a non-matching head. -/
theorem lookup_cons_ne (k k' : String) (hne : (k == k') = false) (v' : JVal)
    (l : List (String × JVal)) :
    List.lookup k ((k', v') :: l) = List.lookup k l := by
  simp [List.lookup, hne]

/-- Helper: in-place replacement of one key's value leaves other keys'
lookups unchanged. -/
theorem lookup_map_replace (l : List (String × JVal)) (k : String) (v : JVal)
    (k2 : String) (hne : k2 ≠ k) :
    List.lookup k2 (l.map (fun kv => if kv.1 == k then (k, v) else kv)) =
      List.lookup k2 l := by
  induction l with
  | nil => rfl
  | cons kv rest ih =>
    obtain ⟨k', v'⟩ := kv
    rw [List.map_cons]
    by_cases hk : k' = k
    · subst hk
      have hc : ((k', v').1 == k') = true := by simp
      rw [show (if (k', v').1 == k' then (k', v) else (k', v')) = (k', v) by simp]
      rw [lookup_cons_ne k2 k' (by simpa using hne) v _,
        lookup_cons_ne k2 k' (by simpa using hne) v' rest]
      exact ih
    · rw [show (if (k', v').1 == k then (k, v) else (k', v')) = (k', v') by
        simp [show (k' == k) = false by simpa using hk]]
      by_cases hk2 : k2 = k'
      · subst hk2
        rw [lookup_cons_self, lookup_cons_self]
      · rw [lookup_cons_ne k2 k' (by simpa using hk2) v' _,
          lookup_cons_ne k2 k' (by simpa using hk2) v' rest]
        exact ih

/-- Helper: appending a binding for a different key leaves a lookup
unchanged. -/
theorem lookup_append_single (l : List (String × JVal)) (k : String) (v : JVal)
    (k2 : String) (hne : k2 ≠ k) :
    List.lookup k2 (l ++ [(k, v)]) = List.lookup k2 l := by
  induction l with
  | nil =>
    simp only [List.nil_append]
    rw [lookup_cons_ne k2 k (by simpa using hne) v []]
  | cons kv rest ih =>
    obtain ⟨k', v'⟩ := kv
    rw [List.cons_append]
    by_cases hk2 : k2 = k'
    · subst hk2
      rw [lookup_cons_self, lookup_cons_self]
    · rw [lookup_cons_ne k2 k' (by simpa using hk2) v' _,
        lookup_cons_ne k2 k' (by simpa using hk2) v' rest]
      exact ih

/-- Helper: `dictSet` leaves every other key's lookup unchanged. -/
theorem lookup_dictSet_other (sfs : List (String × JVal)) (k : String) (v : JVal)
    (k2 : String) (hne : k2 ≠ k) :
    List.lookup k2 (dictSet sfs k v) = List.lookup k2 sfs := by
  unfold dictSet
  cases hhk : hasKey sfs k with
  | true =>
    rw [if_pos rfl]
    exact lookup_map_replace sfs k v k2 hne
  | false =>
    rw [if_neg (by simp)]
    exact lookup_append_single sfs k v k2 hne

/-- Helper: a non-error dict payload is normalized and returned
successfully. -/
theorem resultStage_ok (label : String) (efs pfs : List (String × JVal))
    (hres : List.lookup "result" efs = some (.obj pfs))
    (hnosent : isErrorPayload (.obj pfs) = false) :
    resultStage label (.obj efs) = .ok (normalizePayload (.obj pfs)) := by
  unfold resultStage
  simp only [hres, Option.getD_some, hnosent, Bool.and_false]
  simp

/-- Helper: on payloads whose `structuredContent`, when present, is a
dict, the source's reshaping agrees with the claim's description. -/
theorem normalizePayload_eq_claim (pfs : List (String × JVal))
    (hstruct : ∀ s, List.lookup "structuredContent" pfs = some s → s.isObj = true) :
    normalizePayload (.obj pfs) = claimNormalize pfs := by
  cases h1 : List.lookup "structuredContent" pfs with
  | none => simp only [normalizePayload, claimNormalize, h1]
  | some s =>
    have hobj := hstruct s h1
    cases s with
    | obj sfs =>
      cases h2 : List.lookup "content" pfs with
      | some c => simp only [normalizePayload, claimNormalize, h1, h2]
      | none => simp only [normalizePayload, claimNormalize, h1, h2]
    | null => exact absurd hobj (by simp [JVal.isObj])
    | bool x => exact absurd hobj (by simp [JVal.isObj])
    | num i => exact absurd hobj (by simp [JVal.isObj])
    | str s2 => exact absurd hobj (by simp [JVal.isObj])
    | arr l => exact absurd hobj (by simp [JVal.isObj])

/-- C2: on a successful, non-error result object, the value returned by
invoke is the claim's reshaping: a copy of `structuredContent` (when it
exists) with `content` attached under the `content` key, overwriting any
inherited `content` binding and leaving every other binding unchanged;
when `structuredContent` is absent the result is returned unchanged. -/
theorem c2_normalize_structured (context : String) (sessionId : Option String)
    (resp : HttpResponse) (efs pfs : List (String × JVal))
    (h2a : 200 ≤ resp.status) (h2b : resp.status < 300)
    (hparse : parseResponseText resp.body = .ok (.obj efs))
    (herr : hasKey efs "error" = false)
    (hres : List.lookup "result" efs = some (.obj pfs))
    (hnosent : isErrorPayload (.obj pfs) = false)
    (hstruct : ∀ s, List.lookup "structuredContent" pfs = some s → s.isObj = true) :
    (requestPayload context sessionId resp).2 = .ok (claimNormalize pfs) ∧
    (∀ (sfs : List (String × JVal)) (c : JVal),
      List.lookup "content" (dictSet sfs "content" c) = some c) ∧
    (∀ (sfs : List (String × JVal)) (c : JVal) (k : String), k ≠ "content" →
      List.lookup k (dictSet sfs "content" c) = List.lookup k sfs) := by
  refine ⟨?_, ?_, ?_⟩
  · show responseStage (formatContext context) resp = _
    rw [responseStage_to_resultStage (formatContext context) resp efs (by omega) hparse herr]
    rw [resultStage_ok (formatContext context) efs pfs hres hnosent]
    rw [normalizePayload_eq_claim pfs hstruct]
  · intro sfs c
    exact lookup_dictSet_self sfs "content" c
  · intro sfs c k hk
    exact lookup_dictSet_other sfs "content" c k hk

/-- Witness for C2: the spec's example, `structuredContent` an object and
`content` attached on the copy. -/
theorem c2_normalize_structured_witness :
    (requestPayload "t" none
      ⟨200, "OK", [],
        "\x7b\"result\": \x7b\"structuredContent\": \x7b\"a\": 1\x7d, \"content\": [\"c\"]\x7d\x7d"⟩).2 =
      .ok (JVal.obj [("a", JVal.num 1), ("content", JVal.arr [JVal.str "c"])]) :=
  (c2_normalize_structured "t" none
    ⟨200, "OK", [],
      "\x7b\"result\": \x7b\"structuredContent\": \x7b\"a\": 1\x7d, \"content\": [\"c\"]\x7d\x7d"⟩
    [("result", JVal.obj [("structuredContent", JVal.obj [("a", JVal.num 1)]),
      ("content", JVal.arr [JVal.str "c"])])]
    [("structuredContent", JVal.obj [("a", JVal.num 1)]),
     ("content", JVal.arr [JVal.str "c"])]
    (by decide) (by decide) rfl rfl rfl rfl
    (fun s hs => by cases hs; rfl)).1

/-- Helper: the recursive segment loop of `_parse_sse_payload` computes
first-parseable-segment-wins over the per-segment candidate payloads. -/
theorem sseLoop_eq_findSome (segs : List (List Char)) :
    sseLoop segs =
      match segs.findSome? (sseSegPayloadWith pyLstripL) with
      | some v => .ok v
      | none => .error (.sdk "No JSON payload found in SSE response") := by
  induction segs with
  | nil => rfl
  | cons seg rest ih =>
    rw [List.findSome?_cons]
    show (if (sseDataLines seg).isEmpty then sseLoop rest
          else match jsonLoadsL (joinSep ['\n'] (sseDataLines seg)) with
               | some v => .ok v
               | none => sseLoop rest) = _
    have hseg : sseSegPayloadWith pyLstripL seg =
        (if (sseDataLines seg).isEmpty then none
         else jsonLoadsL (joinSep ['\n'] (sseDataLines seg))) := rfl
    rw [hseg]
    cases hd : (sseDataLines seg).isEmpty with
    | true =>
      rw [if_pos rfl, if_pos rfl]
      exact ih
    | false =>
      rw [if_neg (by simp), if_neg (by simp)]
      cases hp : jsonLoadsL (joinSep ['\n'] (sseDataLines seg)) with
      | some v => rfl
      | none => exact ih

/-- C4 (counterexample): the claim says the value after `data:` has
exactly one leading space stripped.  The code strips all leading
whitespace (Python `str.lstrip`).  On the single-segment stream
`data:<NBSP>{"a": 1}` — a no-break space after the colon — the code
decodes the object, while the claim's algorithm leaves the no-break space
in place, making the strict JSON parse fail and decoding error out. -/
theorem c4_one_space_counterexample :
    parseSsePayload "data:\u00a0\x7b\"a\": 1\x7d" = .ok (.obj [("a", .num 1)]) ∧
    sseDecodeClaimC4 "data:\u00a0\x7b\"a\": 1\x7d" =
      .error (.sdk "No JSON payload found in SSE response") :=
  ⟨rfl, rfl⟩

/-- C4 (amended): as the claim states, except that decoding strips all
leading whitespace from the value after the colon (Python `str.lstrip`),
not exactly one leading space: split on blank-line boundaries, collect the
lines whose trimmed, case-insensitive prefix is `data:`, strip the value,
join with newlines, JSON-parse, first parseable segment wins, and fail
with the parse error when no segment parses. -/
theorem c4_sse_decode_amended (text : String) :
    parseSsePayload text = sseDecodeAmended text := by
  unfold parseSsePayload sseDecodeAmended
  rw [sseLoop_eq_findSome]

/-- Helper: facts about one emitted decimal digit character. -/
theorem digit_char_facts : ∀ k, k < 10 → (Char.ofNat (48 + k)).isDigit = true ∧
    (Char.ofNat (48 + k)).toNat = 48 + k ∧ isJsonWs (Char.ofNat (48 + k)) = false ∧
    (Char.ofNat (48 + k) = '-') = False ∧ (Char.ofNat (48 + k) = '0' ↔ k = 0) := by
  decide

/-- Helper: every character of a decimal representation is a digit. -/
theorem natReprAux_all_digits : ∀ (f n : Nat), ∀ c ∈ natReprAux f n, c.isDigit = true := by
  intro f
  induction f with
  | zero => intro n c hc; exact absurd hc (by simp [natReprAux])
  | succ f ih =>
    intro n c hc
    rw [natReprAux] at hc
    by_cases h : n < 10
    · rw [if_pos h] at hc
      simp only [List.mem_singleton] at hc
      subst hc
      exact (digit_char_facts (n % 10) (by omega)).1
    · rw [if_neg h] at hc
      rcases List.mem_append.mp hc with hc | hc
      · exact ih (n / 10) c hc
      · simp only [List.mem_singleton] at hc
        subst hc
        exact (digit_char_facts (n % 10) (by omega)).1

/-- Helper: decimal representations are never empty. -/
theorem natReprAux_ne_nil (f n : Nat) : natReprAux (f + 1) n ≠ [] := by
  rw [natReprAux]
  by_cases h : n < 10
  · rw [if_pos h]; simp
  · rw [if_neg h]; simp

/-- Helper: the digit fold inverts the decimal representation. -/
theorem digitsVal_natReprAux : ∀ (f n : Nat), n < f → digitsVal (natReprAux f n) = n := by
  intro f
  induction f with
  | zero => omega
  | succ f ih =>
    intro n hn
    rw [natReprAux]
    by_cases h : n < 10
    · rw [if_pos h]
      show digitsVal [Char.ofNat (48 + n % 10)] = n
      simp [digitsVal, (digit_char_facts (n % 10) (by omega)).2.1]
      omega
    · rw [if_neg h]
      have hrec : digitsVal (natReprAux f (n / 10)) = n / 10 := ih (n / 10) (by omega)
      show List.foldl (fun a c => a * 10 + (c.toNat - 48)) 0
        (natReprAux f (n / 10) ++ [Char.ofNat (48 + n % 10)]) = n
      rw [List.foldl_append]
      show digitsVal (natReprAux f (n / 10)) * 10 +
        ((Char.ofNat (48 + n % 10)).toNat - 48) = n
      rw [hrec, (digit_char_facts (n % 10) (by omega)).2.1]
      omega

/-- Helper: the leading digit of a positive number is not zero. -/
theorem natReprAux_head_ne_zero : ∀ (f n : Nat), n < f → 1 ≤ n →
    ∀ c, (natReprAux f n).head? = some c → c ≠ '0' := by
  intro f
  induction f with
  | zero => omega
  | succ f ih =>
    intro n hn h1 c hc
    rw [natReprAux] at hc
    by_cases h : n < 10
    · rw [if_pos h] at hc
      simp only [List.head?_cons, Option.some.injEq] at hc
      subst hc
      intro h0
      have := ((digit_char_facts (n % 10) (by omega)).2.2.2.2).mp (by simpa using h0)
      omega
    · rw [if_neg h] at hc
      have hne : natReprAux f (n / 10) ≠ [] := by
        have hf : f = (f - 1) + 1 := by omega
        rw [hf]
        exact natReprAux_ne_nil (f - 1) (n / 10)
      rw [List.head?_append_of_ne_nil _ hne] at hc
      exact ih (n / 10) (by omega) (by omega) c hc

/-- Helper: `takeWhile` over a satisfying block followed by a failing
head takes exactly the block. -/
theorem takeWhile_block (p : Char → Bool) : ∀ (ds rest : List Char),
    (∀ c ∈ ds, p c = true) → (∀ c, rest.head? = some c → p c = false) →
    (ds ++ rest).takeWhile p = ds ∧ (ds ++ rest).dropWhile p = rest := by
  intro ds
  induction ds with
  | nil =>
    intro rest _ hrest
    cases rest with
    | nil => exact ⟨rfl, rfl⟩
    | cons c t =>
      have hc := hrest c rfl
      simp [List.takeWhile_cons, List.dropWhile_cons, hc]
  | cons d ds ih =>
    intro rest hds hrest
    have hd : p d = true := hds d (List.mem_cons_self d ds)
    have := ih rest (fun c hc => hds c (List.mem_cons_of_mem d hc)) hrest
    simp only [List.cons_append, List.takeWhile_cons, List.dropWhile_cons, hd, if_true]
    exact ⟨by rw [this.1], by rw [this.2]⟩

/-- Helper: parsing a serialized natural number recovers it. -/
theorem parseNat_natRepr (n : Nat) (rest : List Char) (hb : numBoundary rest) :
    parseNat (natRepr n ++ rest) = some (n, rest) := by
  have hdig : ∀ c ∈ natRepr n, c.isDigit = true := natReprAux_all_digits (n + 1) n
  have hstop : ∀ c, rest.head? = some c → c.isDigit = false := fun c hc => (hb c hc).1
  obtain ⟨htake, hdrop⟩ := takeWhile_block Char.isDigit (natRepr n) rest hdig hstop
  unfold parseNat
  rw [htake, hdrop]
  have hne : natRepr n ≠ [] := natReprAux_ne_nil n n
  rw [if_neg (by simpa using hne)]
  have hlz : ¬((natRepr n).length > 1 ∧ (natRepr n).head? = some '0') := by
    rintro ⟨hlen, hhead⟩
    by_cases h0 : n = 0
    · subst h0
      have : natRepr 0 = [Char.ofNat 48] := rfl
      rw [this] at hlen
      simp at hlen
    · exact natReprAux_head_ne_zero (n + 1) n (by omega) (by omega) '0' hhead rfl
  rw [if_neg hlz]
  have hval : digitsVal (natRepr n) = n := digitsVal_natReprAux (n + 1) n (by omega)
  cases rest with
  | nil => rw [hval]
  | cons c t =>
    obtain ⟨_, hdot, he, hE⟩ := hb c rfl
    have hcond : ¬(c = '.' ∨ c = 'e' ∨ c = 'E') := by tauto
    show (if c = '.' ∨ c = 'e' ∨ c = 'E' then none
          else some (digitsVal (natRepr n), c :: t)) = some (n, c :: t)
    rw [if_neg hcond, hval]

/-- Helper: parsing a serialized integer recovers it. -/
theorem parseNumber_intRepr (i : Int) (rest : List Char) (hb : numBoundary rest) :
    parseNumber (intRepr i ++ rest) = some (i, rest) := by
  unfold intRepr
  by_cases hneg : i < 0
  · rw [if_pos hneg]
    show parseNumber ('-' :: (natRepr i.natAbs ++ rest)) = _
    show (if ('-' : Char) = '-' then
            (parseNat (natRepr i.natAbs ++ rest)).map (fun p => (-(p.1 : Int), p.2))
          else (parseNat ('-' :: (natRepr i.natAbs ++ rest))).map
            (fun p => ((p.1 : Int), p.2))) = _
    rw [if_pos rfl, parseNat_natRepr i.natAbs rest hb]
    simp only [Option.map_some']
    have : -(i.natAbs : Int) = i := by omega
    rw [this]
  · rw [if_neg hneg]
    have hne : natRepr i.natAbs ≠ [] := natReprAux_ne_nil _ _
    obtain ⟨d, ds, hds⟩ : ∃ d ds, natRepr i.natAbs = d :: ds := by
      cases h : natRepr i.natAbs with
      | nil => exact absurd h hne
      | cons d ds => exact ⟨d, ds, rfl⟩
    rw [hds]
    have hddig : d.isDigit = true := by
      have hmem := natReprAux_all_digits (i.natAbs + 1) i.natAbs d
      apply hmem
      show d ∈ natRepr i.natAbs
      rw [hds]
      exact List.mem_cons_self d ds
    have hdne : ¬(d = '-') := by
      intro h
      subst h
      exact absurd hddig (by decide)
    have hpn := parseNat_natRepr i.natAbs rest hb
    rw [hds] at hpn
    show (if d = '-' then (parseNat (ds ++ rest)).map (fun p => (-(p.1 : Int), p.2))
          else (parseNat ((d :: ds) ++ rest)).map (fun p => ((p.1 : Int), p.2))) = _
    rw [if_neg hdne, hpn]
    simp only [Option.map_some']
    have : (i.natAbs : Int) = i := by omega
    rw [this]

/-- Helper: one hex digit decodes to its value. -/
theorem hexVal1_hexDigitChar : ∀ m, m < 16 → hexVal1 (hexDigitChar m) = some m := by
  decide

/-- Helper: `hexDigitChar` only depends on the argument modulo 16. -/
theorem hexDigitChar_mod (k : Nat) : hexDigitChar k = hexDigitChar (k % 16) := by
  unfold hexDigitChar
  have h : k % 16 % 16 = k % 16 := by omega
  rw [h]

/-- Helper: a four-hex-digit group decodes to the encoded value. -/
theorem hexVal4_hex4 (n : Nat) (hn : n < 65536) :
    hexVal4 (hexDigitChar (n / 4096 % 16)) (hexDigitChar (n / 256 % 16))
      (hexDigitChar (n / 16 % 16)) (hexDigitChar (n % 16)) = some n := by
  unfold hexVal4
  rw [hexVal1_hexDigitChar (n / 4096 % 16) (by omega),
    hexVal1_hexDigitChar (n / 256 % 16) (by omega),
    hexVal1_hexDigitChar (n / 16 % 16) (by omega),
    hexVal1_hexDigitChar (n % 16) (by omega)]
  show some ((((n / 4096 % 16) * 16 + n / 256 % 16) * 16 + n / 16 % 16) * 16 + n % 16) =
    some n
  congr 1
  omega

/-- Helper: the raw-character step of the string parser. -/
theorem parseStrAux_raw (fuel : Nat) (c : Char) (r : List Char) (h1 : ¬(c = '"'))
    (h2 : ¬(c = '\\')) (h3 : 0x20 ≤ c.toNat) :
    parseStrAux (fuel + 1) (c :: r) =
      (parseStrAux fuel r).map (fun p => (c :: p.1, p.2)) := by
  rw [parseStrAux]
  rw [if_neg h1, if_neg h2, if_pos h3]

/-- Helper: the closing-quote step of the string parser. -/
theorem parseStrAux_quote (fuel : Nat) (r : List Char) :
    parseStrAux (fuel + 1) ('"' :: r) = some ([], r) := by
  rw [parseStrAux]
  rw [if_pos rfl]

/-- Helper: the shape of the escape handler on a `\u` escape body. -/
theorem parseEscBody_u_step (k : List Char → Option (List Char × List Char))
    (h1 h2 h3 h4 : Char) (t : List Char) :
    parseEscBody k ('u' :: h1 :: h2 :: h3 :: h4 :: t) =
      (hexVal4 h1 h2 h3 h4).bind (fun v =>
        if 0xD800 ≤ v ∧ v < 0xDC00 then
          (match t with
           | x :: y :: e2 :: f :: g :: h :: r4 =>
             if x = '\\' ∧ y = 'u' then
               (hexVal4 e2 f g h).bind (fun w =>
                 if 0xDC00 ≤ w ∧ w < 0xE000 then
                   (k r4).map (fun p =>
                     (Char.ofNat (0x10000 + (v - 0xD800) * 0x400 + (w - 0xDC00)) :: p.1, p.2))
                 else none)
             else none
           | _ => none)
        else if 0xDC00 ≤ v ∧ v < 0xE000 then none
        else (k t).map (fun p => (Char.ofNat v :: p.1, p.2))) := rfl

/-- Helper: the shape of the escape handler on two adjacent `\u` escape
bodies. -/
theorem parseEscBody_u_pair_step (k : List Char → Option (List Char × List Char))
    (h1 h2 h3 h4 l1 l2 l3 l4 : Char) (t : List Char) :
    parseEscBody k ('u' :: h1 :: h2 :: h3 :: h4 :: '\\' :: 'u' :: l1 :: l2 :: l3 :: l4 :: t) =
      (hexVal4 h1 h2 h3 h4).bind (fun v =>
        if 0xD800 ≤ v ∧ v < 0xDC00 then
          (hexVal4 l1 l2 l3 l4).bind (fun w =>
            if 0xDC00 ≤ w ∧ w < 0xE000 then
              (k t).map (fun p =>
                (Char.ofNat (0x10000 + (v - 0xD800) * 0x400 + (w - 0xDC00)) :: p.1, p.2))
            else none)
        else if 0xDC00 ≤ v ∧ v < 0xE000 then none
        else (k ('\\' :: 'u' :: l1 :: l2 :: l3 :: l4 :: t)).map
          (fun p => (Char.ofNat v :: p.1, p.2))) := rfl

/-- Helper: parsing a single `\uXXXX` escape of a non-surrogate value
prepends that character. -/
theorem parse_u_escape (fuel : Nat) (v : Nat) (t : List Char)
    (hv : v < 0xD800 ∨ (0xDFFF < v ∧ v < 0x10000)) :
    parseStrAux (fuel + 1) ('\\' :: 'u' :: hex4 v ++ t) =
      (parseStrAux fuel t).map (fun p => (Char.ofNat v :: p.1, p.2)) := by
  show parseStrAux (fuel + 1) ('\\' :: 'u' :: hexDigitChar (v / 4096 % 16) ::
    hexDigitChar (v / 256 % 16) :: hexDigitChar (v / 16 % 16) :: hexDigitChar (v % 16) :: t) = _
  rw [parseStrAux]
  rw [if_neg (by decide), if_pos rfl]
  rw [parseEscBody_u_step]
  rw [hexVal4_hex4 v (by omega)]
  rw [Option.some_bind]
  rw [if_neg (by omega), if_neg (by omega)]

/-- Helper: parsing a surrogate-pair escape of a supplementary-plane value
prepends that character. -/
theorem parse_u_surrogate_pair (fuel : Nat) (v : Nat) (t : List Char)
    (hv : 0x10000 ≤ v ∧ v < 0x110000) :
    parseStrAux (fuel + 1) ('\\' :: 'u' :: hex4 (0xD800 + (v - 0x10000) / 0x400) ++
      '\\' :: 'u' :: hex4 (0xDC00 + (v - 0x10000) % 0x400) ++ t) =
      (parseStrAux fuel t).map (fun p => (Char.ofNat v :: p.1, p.2)) := by
  have hhi : 0xD800 + (v - 0x10000) / 0x400 < 65536 := by omega
  have hlo : 0xDC00 + (v - 0x10000) % 0x400 < 65536 := by omega
  show parseStrAux (fuel + 1) ('\\' :: 'u' ::
    hexDigitChar ((0xD800 + (v - 0x10000) / 0x400) / 4096 % 16) ::
    hexDigitChar ((0xD800 + (v - 0x10000) / 0x400) / 256 % 16) ::
    hexDigitChar ((0xD800 + (v - 0x10000) / 0x400) / 16 % 16) ::
    hexDigitChar ((0xD800 + (v - 0x10000) / 0x400) % 16) ::
    ('\\' :: 'u' ::
      hexDigitChar ((0xDC00 + (v - 0x10000) % 0x400) / 4096 % 16) ::
      hexDigitChar ((0xDC00 + (v - 0x10000) % 0x400) / 256 % 16) ::
      hexDigitChar ((0xDC00 + (v - 0x10000) % 0x400) / 16 % 16) ::
      hexDigitChar ((0xDC00 + (v - 0x10000) % 0x400) % 16) :: t)) = _
  rw [parseStrAux]
  rw [if_neg (by decide), if_pos rfl]
  rw [parseEscBody_u_pair_step]
  rw [hexVal4_hex4 _ hhi]
  rw [Option.some_bind]
  rw [if_pos (by omega)]
  rw [hexVal4_hex4 _ hlo]
  rw [Option.some_bind]
  rw [if_pos (by omega)]
  have harith : 0x10000 + (0xD800 + (v - 0x10000) / 0x400 - 0xD800) * 0x400 +
      (0xDC00 + (v - 0x10000) % 0x400 - 0xDC00) = v := by omega
  rw [harith]

/-- Helper: every character is within `Char`'s valid scalar range. -/
theorem char_valid_cases (c : Char) :
    c.toNat < 0xD800 ∨ (0xDFFF < c.toNat ∧ c.toNat < 0x110000) := by
  have h := c.valid
  unfold UInt32.isValidChar at h
  unfold Nat.isValidChar at h
  exact h

set_option maxHeartbeats 1600000 in
/-- Helper: escaping one character never yields the empty output. -/
theorem escapeChar_ne_nil (c : Char) : escapeChar c ≠ [] := by
  unfold escapeChar
  split_ifs <;> intro h <;> exact List.noConfusion h

/-- Helper: parsing the escaped form of one character prepends exactly
that character. -/
theorem parseStrAux_escapeChar (fuel : Nat) (c : Char) (t : List Char) :
    parseStrAux (fuel + 1) (escapeChar c ++ t) =
      (parseStrAux fuel t).map (fun p => (c :: p.1, p.2)) := by
  by_cases h1 : c = '"'
  · subst h1
    show parseStrAux (fuel + 1) ('\\' :: '"' :: t) = _
    rw [parseStrAux]
    rw [if_neg (by decide), if_pos rfl]
    rfl
  by_cases h2 : c = '\\'
  · subst h2
    show parseStrAux (fuel + 1) ('\\' :: '\\' :: t) = _
    rw [parseStrAux]
    rw [if_neg (by decide), if_pos rfl]
    rfl
  by_cases h3 : c = '\n'
  · subst h3
    show parseStrAux (fuel + 1) ('\\' :: 'n' :: t) = _
    rw [parseStrAux]
    rw [if_neg (by decide), if_pos rfl]
    rfl
  by_cases h4 : c = '\r'
  · subst h4
    show parseStrAux (fuel + 1) ('\\' :: 'r' :: t) = _
    rw [parseStrAux]
    rw [if_neg (by decide), if_pos rfl]
    rfl
  by_cases h5 : c = '\t'
  · subst h5
    show parseStrAux (fuel + 1) ('\\' :: 't' :: t) = _
    rw [parseStrAux]
    rw [if_neg (by decide), if_pos rfl]
    rfl
  by_cases h6 : c = '\x08'
  · subst h6
    show parseStrAux (fuel + 1) ('\\' :: 'b' :: t) = _
    rw [parseStrAux]
    rw [if_neg (by decide), if_pos rfl]
    rfl
  by_cases h7 : c = '\x0c'
  · subst h7
    show parseStrAux (fuel + 1) ('\\' :: 'f' :: t) = _
    rw [parseStrAux]
    rw [if_neg (by decide), if_pos rfl]
    rfl
  by_cases h8 : c.toNat < 0x20
  · have hesc : escapeChar c = '\\' :: 'u' :: hex4 c.toNat := by
      unfold escapeChar
      rw [if_neg h1, if_neg h2, if_neg h3, if_neg h4, if_neg h5, if_neg h6, if_neg h7,
        if_pos h8]
    rw [hesc]
    have h := parse_u_escape fuel c.toNat t (Or.inl (by omega))
    rw [Char.ofNat_toNat] at h
    exact h
  by_cases h9 : c.toNat < 0x7f
  · have hesc : escapeChar c = [c] := by
      unfold escapeChar
      rw [if_neg h1, if_neg h2, if_neg h3, if_neg h4, if_neg h5, if_neg h6, if_neg h7,
        if_neg h8, if_pos h9]
    rw [hesc]
    exact parseStrAux_raw fuel c t h1 h2 (by omega)
  by_cases h10 : c.toNat < 0x10000
  · have hesc : escapeChar c = '\\' :: 'u' :: hex4 c.toNat := by
      unfold escapeChar
      rw [if_neg h1, if_neg h2, if_neg h3, if_neg h4, if_neg h5, if_neg h6, if_neg h7,
        if_neg h8, if_neg h9, if_pos h10]
    rw [hesc]
    have hval := char_valid_cases c
    have h := parse_u_escape fuel c.toNat t (by omega)
    rw [Char.ofNat_toNat] at h
    exact h
  · have hesc : escapeChar c = '\\' :: 'u' :: hex4 (0xD800 + (c.toNat - 0x10000) / 0x400) ++
        '\\' :: 'u' :: hex4 (0xDC00 + (c.toNat - 0x10000) % 0x400) := by
      unfold escapeChar
      rw [if_neg h1, if_neg h2, if_neg h3, if_neg h4, if_neg h5, if_neg h6, if_neg h7,
        if_neg h8, if_neg h9, if_neg h10]
    rw [hesc]
    have hval := char_valid_cases c
    have h := parse_u_surrogate_pair fuel c.toNat t (by omega)
    rw [Char.ofNat_toNat] at h
    exact h

/-- Helper: parsing an escaped string body up to the closing quote
recovers the original characters. -/
theorem parseStrAux_escChars : ∀ (s : List Char) (rest : List Char) (fuel : Nat),
    (escChars s).length < fuel →
    parseStrAux fuel (escChars s ++ '"' :: rest) = some (s, rest) := by
  intro s
  induction s with
  | nil =>
    intro rest fuel hf
    obtain ⟨f, rfl⟩ : ∃ f, fuel = f + 1 := ⟨fuel - 1, by omega⟩
    exact parseStrAux_quote f rest
  | cons c s' ih =>
    intro rest fuel hf
    have hlen : 1 ≤ (escapeChar c).length := by
      cases h : escapeChar c with
      | nil => exact absurd h (escapeChar_ne_nil c)
      | cons x xs => simp
    have hlen2 : (escChars (c :: s')).length =
        (escapeChar c).length + (escChars s').length := by
      show (escapeChar c ++ escChars s').length = _
      rw [List.length_append]
    obtain ⟨f, rfl⟩ : ∃ f, fuel = f + 1 := ⟨fuel - 1, by omega⟩
    show parseStrAux (f + 1) ((escapeChar c ++ escChars s') ++ '"' :: rest) = _
    rw [List.append_assoc]
    rw [parseStrAux_escapeChar f c (escChars s' ++ '"' :: rest)]
    rw [ih rest f (by omega)]
    rfl

/-- Helper: a successful monadic map over options on a cons splits into a
successful head and tail. -/
theorem mapM_option_cons {α β : Type} (f : α → Option β) (a : α) (l : List α)
    (out : List β) (h : (a :: l).mapM f = some out) :
    ∃ b bs, f a = some b ∧ l.mapM f = some bs ∧ out = b :: bs := by
  rw [List.mapM_cons] at h
  cases hfa : f a with
  | none => rw [hfa] at h; simp at h
  | some b =>
    rw [hfa] at h
    cases hl : l.mapM f with
    | none => rw [hl] at h; simp at h
    | some bs =>
      rw [hl] at h
      simp at h
      exact ⟨b, bs, rfl, rfl, h.symm⟩

/-- Helper: every element of a successful monadic map's output comes from
mapping some element of the input. -/
theorem mapM_option_mem {α β : Type} (f : α → Option β) :
    ∀ (l : List α) (outs : List β), l.mapM f = some outs →
      ∀ o ∈ outs, ∃ x ∈ l, f x = some o := by
  intro l
  induction l with
  | nil =>
    intro outs h o ho
    have h0 : List.mapM f ([] : List α) = some ([] : List β) := rfl
    rw [h0] at h
    obtain rfl := Option.some.inj h
    exact absurd ho (List.not_mem_nil o)
  | cons a l ih =>
    intro outs h o ho
    obtain ⟨b, bs, hb, hbs, rfl⟩ := mapM_option_cons f a l outs h
    rcases List.mem_cons.mp ho with rfl | hmem
    · exact ⟨a, List.mem_cons_self a l, hb⟩
    · obtain ⟨x, hx, hfx⟩ := ih bs hbs o hmem
      exact ⟨x, List.mem_cons_of_mem a hx, hfx⟩

/-- Helper: dropWhile is the identity when the head fails the predicate. -/
theorem dropWhile_head_noop (p : Char → Bool) (l : List Char) (c : Char)
    (hh : l.head? = some c) (hp : p c = false) : l.dropWhile p = l := by
  cases l with
  | nil => cases hh
  | cons d t =>
    obtain rfl : d = c := by injection hh
    simp [List.dropWhile_cons, hp]

/-- Helper: whitespace skipping is the identity on a non-whitespace head. -/
theorem skipWs_cons_noop (c : Char) (t : List Char) (h : isJsonWs c = false) :
    skipWs (c :: t) = c :: t := by
  simp [skipWs, List.dropWhile_cons, h]

/-- Helper: whitespace skipping consumes an all-whitespace prefix. -/
theorem skipWs_append_all (ws t : List Char) (h : ∀ c ∈ ws, isJsonWs c = true) :
    skipWs (ws ++ t) = skipWs t := by
  induction ws with
  | nil => rfl
  | cons w ws ih =>
    have hw : isJsonWs w = true := h w (List.mem_cons_self w ws)
    show skipWs (w :: (ws ++ t)) = skipWs t
    rw [show skipWs (w :: (ws ++ t)) = skipWs (ws ++ t) from by
      simp [skipWs, List.dropWhile_cons, hw]]
    exact ih (fun c hc => h c (List.mem_cons_of_mem w hc))

/-- Helper: Python strip is the identity when both ends are non-space. -/
theorem pyStripL_noop (l : List Char) (c0 cl : Char) (hh : l.head? = some c0)
    (hc0 : pyIsSpace c0 = false) (hl : l.getLast? = some cl)
    (hcl : pyIsSpace cl = false) : pyStripL l = l := by
  have h1 : pyLstripL l = l := dropWhile_head_noop pyIsSpace l c0 hh hc0
  show (pyLstripL (pyLstripL l).reverse).reverse = l
  rw [h1]
  have h2 : l.reverse.head? = some cl := by rw [List.head?_reverse]; exact hl
  have h3 : pyLstripL l.reverse = l.reverse :=
    dropWhile_head_noop pyIsSpace l.reverse cl h2 hcl
  rw [h3, List.reverse_reverse]

/-- Helper: a serialized natural number starts with a digit character. -/
theorem natReprAux_head_shape : ∀ (f n : Nat), ∃ k ds, k < 10 ∧
    natReprAux (f + 1) n = Char.ofNat (48 + k) :: ds := by
  intro f
  induction f with
  | zero =>
    intro n
    by_cases h : n < 10
    · exact ⟨n % 10, [], by omega, by rw [natReprAux, if_pos h]⟩
    · refine ⟨n % 10, [], by omega, ?_⟩
      rw [natReprAux, if_neg h]
      rfl
  | succ f ih =>
    intro n
    by_cases h : n < 10
    · exact ⟨n % 10, [], by omega, by rw [natReprAux, if_pos h]⟩
    · obtain ⟨k, ds, hk, hds⟩ := ih (n / 10)
      refine ⟨k, ds ++ [Char.ofNat (48 + n % 10)], hk, ?_⟩
      rw [natReprAux, if_neg h, hds]
      rfl

/-- Helper: a serialized natural number ends with its last digit. -/
theorem natReprAux_getLast (f n : Nat) :
    (natReprAux (f + 1) n).getLast? = some (Char.ofNat (48 + n % 10)) := by
  rw [natReprAux]
  by_cases h : n < 10
  · rw [if_pos h]; rfl
  · rw [if_neg h]
    exact List.getLast?_concat _

/-- Helper: a serialized integer starts with a minus sign or a digit. -/
theorem intRepr_shape (i : Int) : ∃ d ds, intRepr i = d :: ds ∧
    (d = '-' ∨ ∃ k, k < 10 ∧ d = Char.ofNat (48 + k)) := by
  unfold intRepr
  by_cases h : i < 0
  · rw [if_pos h]
    exact ⟨'-', natRepr i.natAbs, rfl, Or.inl rfl⟩
  · rw [if_neg h]
    obtain ⟨k, ds, hk, hds⟩ := natReprAux_head_shape i.natAbs i.natAbs
    refine ⟨Char.ofNat (48 + k), ds, ?_, Or.inr ⟨k, hk, rfl⟩⟩
    rw [natRepr]
    exact hds

/-- Helper: a serialized integer ends with a digit. -/
theorem intRepr_getLast (i : Int) : ∃ k, k < 10 ∧
    (intRepr i).getLast? = some (Char.ofNat (48 + k)) := by
  unfold intRepr
  by_cases h : i < 0
  · rw [if_pos h]
    obtain ⟨k0, ds, hk0, hds⟩ := natReprAux_head_shape i.natAbs i.natAbs
    refine ⟨i.natAbs % 10, by omega, ?_⟩
    show ('-' :: natRepr i.natAbs).getLast? = _
    rw [show natRepr i.natAbs = Char.ofNat (48 + k0) :: ds from hds]
    rw [List.getLast?_cons_cons]
    have hg := natReprAux_getLast i.natAbs i.natAbs
    rw [hds] at hg
    exact hg
  · rw [if_neg h]
    refine ⟨i.natAbs % 10, by omega, ?_⟩
    show (natRepr i.natAbs).getLast? = _
    rw [natRepr]
    exact natReprAux_getLast i.natAbs i.natAbs

/-- Helper: digit characters are not JSON whitespace, Python whitespace,
closing brackets, or any other character the parser dispatches on. -/
theorem digit_props : ∀ k, k < 10 →
    isJsonWs (Char.ofNat (48 + k)) = false ∧ pyIsSpace (Char.ofNat (48 + k)) = false ∧
    Char.ofNat (48 + k) ≠ ']' ∧ Char.ofNat (48 + k) ≠ '}' ∧
    Char.ofNat (48 + k) ≠ 'n' ∧ Char.ofNat (48 + k) ≠ 't' ∧
    Char.ofNat (48 + k) ≠ 'f' ∧ Char.ofNat (48 + k) ≠ '"' ∧
    Char.ofNat (48 + k) ≠ '{' ∧ Char.ofNat (48 + k) ≠ '[' := by
  decide

/-- Helper: a separator context satisfies the number-boundary condition. -/
theorem sepOk_numBoundary (rest : List Char) (h : sepOkB rest = true) :
    numBoundary rest := by
  intro c hc
  cases rest with
  | nil => cases hc
  | cons d t =>
    obtain rfl : d = c := by injection hc
    simp only [sepOkB, Bool.or_eq_true, decide_eq_true_eq] at h
    rcases h with (rfl | rfl) | rfl
    · exact ⟨by decide, by decide, by decide, by decide⟩
    · exact ⟨by decide, by decide, by decide, by decide⟩
    · exact ⟨by decide, by decide, by decide, by decide⟩

/-- Helper: every character of a serialized natural number is a digit
character of known shape. -/
theorem natReprAux_mem_shape : ∀ (f n : Nat) (c : Char), c ∈ natReprAux f n →
    ∃ m, m < 10 ∧ c = Char.ofNat (48 + m) := by
  intro f
  induction f with
  | zero => intro n c hc; exact absurd hc (List.not_mem_nil c)
  | succ f ih =>
    intro n c hc
    rw [natReprAux] at hc
    by_cases h : n < 10
    · rw [if_pos h] at hc
      simp only [List.mem_cons, List.not_mem_nil, or_false] at hc
      exact ⟨n % 10, by omega, hc⟩
    · rw [if_neg h] at hc
      rcases List.mem_append.mp hc with hl | hr
      · exact ih (n / 10) c hl
      · simp only [List.mem_cons, List.not_mem_nil, or_false] at hr
        exact ⟨n % 10, by omega, hr⟩

/-- Helper: digit characters are printable ASCII. -/
theorem digit_ascii : ∀ m, m < 10 →
    32 ≤ (Char.ofNat (48 + m)).toNat ∧ (Char.ofNat (48 + m)).toNat ≤ 126 := by
  decide

/-- Helper: hex digit characters are printable ASCII. -/
theorem hexDigitChar_ascii (m : Nat) :
    32 ≤ (hexDigitChar m).toNat ∧ (hexDigitChar m).toNat ≤ 126 := by
  rw [hexDigitChar_mod]
  have h : m % 16 < 16 := by omega
  revert h
  generalize m % 16 = r
  revert r
  decide

/-- Helper: the four hex digits of an escape body are printable ASCII. -/
theorem hex4_mem_ascii (n : Nat) (x : Char) (hx : x ∈ hex4 n) :
    32 ≤ x.toNat ∧ x.toNat ≤ 126 := by
  simp only [hex4, List.mem_cons, List.not_mem_nil, or_false] at hx
  rcases hx with rfl | rfl | rfl | rfl <;> exact hexDigitChar_ascii _

set_option maxHeartbeats 1600000 in
/-- Helper: every character emitted for one escaped character is printable
ASCII (the ensure-ascii invariant of the serializer). -/
theorem escapeChar_ascii (c : Char) :
    ∀ x ∈ escapeChar c, 32 ≤ x.toNat ∧ x.toNat ≤ 126 := by
  intro x hx
  unfold escapeChar at hx
  split_ifs at hx with h1 h2 h3 h4 h5 h6 h7 h8 h9 h10
  · simp only [List.mem_cons, List.not_mem_nil, or_false] at hx
    rcases hx with rfl | rfl <;> decide
  · simp only [List.mem_cons, List.not_mem_nil, or_false] at hx
    rcases hx with rfl | rfl <;> decide
  · simp only [List.mem_cons, List.not_mem_nil, or_false] at hx
    rcases hx with rfl | rfl <;> decide
  · simp only [List.mem_cons, List.not_mem_nil, or_false] at hx
    rcases hx with rfl | rfl <;> decide
  · simp only [List.mem_cons, List.not_mem_nil, or_false] at hx
    rcases hx with rfl | rfl <;> decide
  · simp only [List.mem_cons, List.not_mem_nil, or_false] at hx
    rcases hx with rfl | rfl <;> decide
  · simp only [List.mem_cons, List.not_mem_nil, or_false] at hx
    rcases hx with rfl | rfl <;> decide
  · simp only [List.mem_cons] at hx
    rcases hx with rfl | hx2
    · decide
    rcases hx2 with rfl | hx3
    · decide
    · exact hex4_mem_ascii _ x hx3
  · simp only [List.mem_cons, List.not_mem_nil, or_false] at hx
    subst hx
    constructor <;> omega
  · simp only [List.mem_cons] at hx
    rcases hx with rfl | hx2
    · decide
    rcases hx2 with rfl | hx3
    · decide
    · exact hex4_mem_ascii _ x hx3
  · rcases List.mem_append.mp hx with hl | hr
    · rcases List.mem_cons.mp hl with rfl | hl2
      · decide
      rcases List.mem_cons.mp hl2 with rfl | hl3
      · decide
      · exact hex4_mem_ascii _ x hl3
    · rcases List.mem_cons.mp hr with rfl | hr2
      · decide
      rcases List.mem_cons.mp hr2 with rfl | hr3
      · decide
      · exact hex4_mem_ascii _ x hr3

/-- Helper: every character of an escaped string body is printable ASCII. -/
theorem escChars_ascii : ∀ (s : List Char) (x : Char), x ∈ escChars s →
    32 ≤ x.toNat ∧ x.toNat ≤ 126 := by
  intro s
  induction s with
  | nil => intro x hx; exact absurd hx (List.not_mem_nil x)
  | cons c s ih =>
    intro x hx
    rcases List.mem_append.mp hx with hl | hr
    · exact escapeChar_ascii c x hl
    · exact ih x hr

/-- Helper: a character of a separator-joined list comes from the
separator or from one of the parts. -/
theorem joinSep_mem (sep : List Char) : ∀ (ls : List (List Char)) (c : Char),
    c ∈ joinSep sep ls → c ∈ sep ∨ ∃ l ∈ ls, c ∈ l := by
  intro ls
  induction ls with
  | nil =>
    intro c hc
    simp only [joinSep] at hc
    exact absurd hc (List.not_mem_nil c)
  | cons l ls ih =>
    intro c hc
    cases ls with
    | nil =>
      simp only [joinSep] at hc
      exact Or.inr ⟨l, List.mem_cons_self l [], hc⟩
    | cons l2 ls2 =>
      simp only [joinSep] at hc
      rcases List.mem_append.mp hc with h1 | h2
      · rcases List.mem_append.mp h1 with ha | hb
        · exact Or.inr ⟨l, List.mem_cons_self l _, ha⟩
        · exact Or.inl hb
      · rcases ih c h2 with ha | ⟨l3, hl3, hc3⟩
        · exact Or.inl ha
        · exact Or.inr ⟨l3, List.mem_cons_of_mem l hl3, hc3⟩

/-- Helper: every character the serializer emits is printable ASCII
(ensure-ascii plus ASCII-only structural characters). -/
theorem dumpsF_ascii : ∀ (n : Nat) (v : JVal) (out : List Char),
    dumpsF n v = some out → ∀ c ∈ out, 32 ≤ c.toNat ∧ c.toNat ≤ 126 := by
  intro n
  induction n with
  | zero => intro v out h; simp [dumpsF] at h
  | succ n ih =>
    intro v out h c hc
    cases v with
    | null =>
      simp only [dumpsF] at h
      obtain rfl := Option.some.inj h
      fin_cases hc <;> decide
    | bool b =>
      cases b with
      | false =>
        simp only [dumpsF] at h
        obtain rfl := Option.some.inj h
        fin_cases hc <;> decide
      | true =>
        simp only [dumpsF] at h
        obtain rfl := Option.some.inj h
        fin_cases hc <;> decide
    | num i =>
      simp only [dumpsF] at h
      obtain rfl := Option.some.inj h
      unfold intRepr at hc
      by_cases hneg : i < 0
      · rw [if_pos hneg] at hc
        rcases List.mem_cons.mp hc with rfl | hm
        · decide
        · rw [natRepr] at hm
          obtain ⟨m, hm10, rfl⟩ := natReprAux_mem_shape _ _ _ hm
          exact digit_ascii m hm10
      · rw [if_neg hneg] at hc
        rw [natRepr] at hc
        obtain ⟨m, hm10, rfl⟩ := natReprAux_mem_shape _ _ _ hc
        exact digit_ascii m hm10
    | str s =>
      simp only [dumpsF] at h
      obtain rfl := Option.some.inj h
      simp only [quoteStr, List.mem_cons, List.mem_append, List.not_mem_nil,
        or_false] at hc
      rcases hc with (rfl | hesc) | rfl
      · decide
      · exact escChars_ascii s.data c hesc
      · decide
    | arr items =>
      simp only [dumpsF] at h
      rw [Option.map_eq_some'] at h
      obtain ⟨outs, hmapM, rfl⟩ := h
      rcases List.mem_cons.mp hc with rfl | hc2
      · decide
      rcases List.mem_append.mp hc2 with hj | he
      · rcases joinSep_mem _ _ _ hj with hs | ⟨o, ho, hco⟩
        · fin_cases hs <;> decide
        · obtain ⟨x, hx, hdx⟩ := mapM_option_mem _ items outs hmapM o ho
          exact ih x o hdx c hco
      · fin_cases he; decide
    | obj fields =>
      simp only [dumpsF] at h
      rw [Option.map_eq_some'] at h
      obtain ⟨outs, hmapM, rfl⟩ := h
      rcases List.mem_cons.mp hc with rfl | hc2
      · decide
      rcases List.mem_append.mp hc2 with hj | he
      · rcases joinSep_mem _ _ _ hj with hs | ⟨o, ho, hco⟩
        · fin_cases hs <;> decide
        · obtain ⟨kv, hkv, hg⟩ := mapM_option_mem _ fields outs hmapM o ho
          rw [Option.map_eq_some'] at hg
          obtain ⟨ov, hov, rfl⟩ := hg
          rcases List.mem_append.mp hco with hq | hrest
          · simp only [quoteStr, List.mem_cons, List.mem_append,
              List.not_mem_nil, or_false] at hq
            rcases hq with (rfl | hq2) | rfl
            · decide
            · exact escChars_ascii _ c hq2
            · decide
          · rcases List.mem_cons.mp hrest with rfl | hrest2
            · decide
            rcases List.mem_cons.mp hrest2 with rfl | hov2
            · decide
            · exact ih kv.2 ov hov c hov2
      · fin_cases he; decide

/-- Helper: serialized output starts with a character that is not
whitespace and not a closing bracket. -/
theorem dumpsF_head : ∀ (n : Nat) (v : JVal) (out : List Char),
    dumpsF n v = some out → ∃ c r, out = c :: r ∧ isJsonWs c = false ∧
      pyIsSpace c = false ∧ c ≠ ']' ∧ c ≠ '}' := by
  intro n v out h
  cases n with
  | zero => simp [dumpsF] at h
  | succ n =>
    cases v with
    | null =>
      simp only [dumpsF] at h
      obtain rfl := Option.some.inj h
      exact ⟨'n', _, rfl, by decide, by decide, by decide, by decide⟩
    | bool b =>
      cases b with
      | false =>
        simp only [dumpsF] at h
        obtain rfl := Option.some.inj h
        exact ⟨'f', _, rfl, by decide, by decide, by decide, by decide⟩
      | true =>
        simp only [dumpsF] at h
        obtain rfl := Option.some.inj h
        exact ⟨'t', _, rfl, by decide, by decide, by decide, by decide⟩
    | num i =>
      simp only [dumpsF] at h
      obtain rfl := Option.some.inj h
      obtain ⟨d, ds, hds, hd⟩ := intRepr_shape i
      rcases hd with rfl | ⟨k, hk, rfl⟩
      · exact ⟨'-', ds, hds, by decide, by decide, by decide, by decide⟩
      · obtain ⟨p1, p2, p3, p4, _⟩ := digit_props k hk
        exact ⟨_, ds, hds, p1, p2, p3, p4⟩
    | str s =>
      simp only [dumpsF] at h
      obtain rfl := Option.some.inj h
      exact ⟨'"', _, rfl, by decide, by decide, by decide, by decide⟩
    | arr items =>
      simp only [dumpsF] at h
      rw [Option.map_eq_some'] at h
      obtain ⟨outs, _, rfl⟩ := h
      exact ⟨'[', _, rfl, by decide, by decide, by decide, by decide⟩
    | obj fields =>
      simp only [dumpsF] at h
      rw [Option.map_eq_some'] at h
      obtain ⟨outs, _, rfl⟩ := h
      exact ⟨'{', _, rfl, by decide, by decide, by decide, by decide⟩

/-- Helper: serialized output ends with a non-space character. -/
theorem dumpsF_last : ∀ (n : Nat) (v : JVal) (out : List Char),
    dumpsF n v = some out → ∃ c, out.getLast? = some c ∧ pyIsSpace c = false := by
  intro n v out h
  cases n with
  | zero => simp [dumpsF] at h
  | succ n =>
    cases v with
    | null =>
      simp only [dumpsF] at h
      obtain rfl := Option.some.inj h
      exact ⟨'l', rfl, by decide⟩
    | bool b =>
      cases b with
      | false =>
        simp only [dumpsF] at h
        obtain rfl := Option.some.inj h
        exact ⟨'e', rfl, by decide⟩
      | true =>
        simp only [dumpsF] at h
        obtain rfl := Option.some.inj h
        exact ⟨'e', rfl, by decide⟩
    | num i =>
      simp only [dumpsF] at h
      obtain rfl := Option.some.inj h
      obtain ⟨k, hk, hg⟩ := intRepr_getLast i
      obtain ⟨_, p2, _⟩ := digit_props k hk
      exact ⟨_, hg, p2⟩
    | str s =>
      simp only [dumpsF] at h
      obtain rfl := Option.some.inj h
      refine ⟨'"', ?_, by decide⟩
      show ('"' :: escChars s.data ++ ['"']).getLast? = some '"'
      rw [show '"' :: escChars s.data ++ ['"'] =
        ('"' :: escChars s.data) ++ ['"'] from rfl]
      exact List.getLast?_concat _
    | arr items =>
      simp only [dumpsF] at h
      rw [Option.map_eq_some'] at h
      obtain ⟨outs, _, rfl⟩ := h
      refine ⟨']', ?_, by decide⟩
      rw [show '[' :: joinSep [',', ' '] outs ++ [']'] =
        ('[' :: joinSep [',', ' '] outs) ++ [']'] from rfl]
      exact List.getLast?_concat _
    | obj fields =>
      simp only [dumpsF] at h
      rw [Option.map_eq_some'] at h
      obtain ⟨outs, _, rfl⟩ := h
      refine ⟨'}', ?_, by decide⟩
      rw [show '{' :: joinSep [',', ' '] outs ++ ['}'] =
        ('{' :: joinSep [',', ' '] outs) ++ ['}'] from rfl]
      exact List.getLast?_concat _

/-- Helper: the value parser only depends on its input up to leading
whitespace. -/
theorem parseF_val_skipEq (q : Nat) (cs cs2 : List Char)
    (h : skipWs cs = skipWs cs2) :
    parseF (q + 1) .val cs = parseF (q + 1) .val cs2 := by
  rw [parseF, parseF, h]

/-- Helper: the value parser on a null literal. -/
theorem parseF_val_lit_null (q : Nat) (r : List Char) :
    parseF (q + 1) .val ('n' :: 'u' :: 'l' :: 'l' :: r) =
      some (.v .null, r) := rfl

/-- Helper: the value parser on a true literal. -/
theorem parseF_val_lit_true (q : Nat) (r : List Char) :
    parseF (q + 1) .val ('t' :: 'r' :: 'u' :: 'e' :: r) =
      some (.v (.bool true), r) := rfl

/-- Helper: the value parser on a false literal. -/
theorem parseF_val_lit_false (q : Nat) (r : List Char) :
    parseF (q + 1) .val ('f' :: 'a' :: 'l' :: 's' :: 'e' :: r) =
      some (.v (.bool false), r) := rfl

/-- Helper: the value parser on an opening quote defers to the string
parser. -/
theorem parseF_val_lit_str (q : Nat) (r : List Char) :
    parseF (q + 1) .val ('"' :: r) =
      (parseStrAux (r.length + 1) r).map
        (fun p => (.v (.str (String.mk p.1)), p.2)) := rfl

/-- Helper: the value parser on an empty array literal. -/
theorem parseF_val_arr_nil (q : Nat) (r : List Char) :
    parseF (q + 1) .val ('[' :: ']' :: r) = some (.v (.arr []), r) := rfl

/-- Helper: the value parser on an empty object literal. -/
theorem parseF_val_obj_nil (q : Nat) (r : List Char) :
    parseF (q + 1) .val ('{' :: '}' :: r) = some (.v (.obj []), r) := rfl

/-- Helper: the value parser on a character that starts no literal, string,
array or object falls through to the number branch. -/
theorem parseF_val_other (q : Nat) (cs : List Char) (d : Char) (T : List Char)
    (hsk : skipWs cs = d :: T)
    (hn : d ≠ 'n') (ht : d ≠ 't') (hf : d ≠ 'f') (hq2 : d ≠ '"')
    (hbo : d ≠ '{') (hbk : d ≠ '[') :
    parseF (q + 1) .val cs =
      (if d = '-' ∨ d.isDigit then
        (parseNumber (d :: T)).map (fun p => (POut.v (JVal.num p.1), p.2))
       else none) := by
  rw [parseF, hsk]
  split
  all_goals rename_i heq
  all_goals first
    | (injection heq with h1 h2
       first
         | exact absurd h1 hn
         | exact absurd h1 ht
         | exact absurd h1 hf
         | exact absurd h1 hq2
         | exact absurd h1 hbo
         | exact absurd h1 hbk
         | (subst h1; subst h2; rfl))
    | (injection heq)

/-- Helper: the value parser on a non-empty array literal defers to the
element parser. -/
theorem parseF_val_arr_cons (q : Nat) (cs r : List Char) (d : Char)
    (T : List Char) (xs : List JVal) (rest2 : List Char)
    (hsk : skipWs cs = '[' :: r) (hsk2 : skipWs r = d :: T) (hd : d ≠ ']')
    (helems : parseF q .elems (d :: T) = some (.vs xs, rest2)) :
    parseF (q + 1) .val cs = some (.v (.arr xs), rest2) := by
  rw [parseF, hsk]
  show (match skipWs r with
        | ']' :: r2 => some (POut.v (JVal.arr []), r2)
        | r1 =>
          match parseF q PMode.elems r1 with
          | some (POut.vs xs, r2) => some (POut.v (JVal.arr xs), r2)
          | _ => none) = some (POut.v (JVal.arr xs), rest2)
  rw [hsk2]
  split
  · rename_i r2 heq
    injection heq with h1 h2
    exact absurd h1 hd
  · rename_i r1 hne2
    rw [helems]

/-- Helper: the value parser on a non-empty object literal defers to the
member parser. -/
theorem parseF_val_obj_cons (q : Nat) (cs r : List Char) (d : Char)
    (T : List Char) (xs : List (String × JVal)) (rest2 : List Char)
    (hsk : skipWs cs = '{' :: r) (hsk2 : skipWs r = d :: T) (hd : d ≠ '}')
    (hmem : parseF q .members (d :: T) = some (.fs xs, rest2)) :
    parseF (q + 1) .val cs = some (.v (.obj xs), rest2) := by
  rw [parseF, hsk]
  show (match skipWs r with
        | '}' :: r2 => some (POut.v (JVal.obj []), r2)
        | r1 =>
          match parseF q PMode.members r1 with
          | some (POut.fs xs, r2) => some (POut.v (JVal.obj xs), r2)
          | _ => none) = some (POut.v (JVal.obj xs), rest2)
  rw [hsk2]
  split
  · rename_i r2 heq
    injection heq with h1 h2
    exact absurd h1 hd
  · rename_i r1 hne2
    rw [hmem]

/-- Helper: joining two or more parts starts with the first part followed
by the separator. -/
theorem joinSep_cons_cons (o o2 : List Char) (os : List (List Char)) :
    joinSep [',', ' '] (o :: o2 :: os) =
      o ++ (',' :: ' ' :: joinSep [',', ' '] (o2 :: os)) := by
  show (o ++ [',', ' ']) ++ joinSep [',', ' '] (o2 :: os) = _
  rw [List.append_assoc]
  rfl

/-- Helper: the element parser accepts the serialized elements of a
non-empty array up to and including the closing bracket, assuming the
round trip for the elements themselves. -/
theorem parse_elems_aux (n : Nat)
    (IH : ∀ (v : JVal) (out : List Char), dumpsF n v = some out →
      ∀ (pf : Nat) (ws rest : List Char), (∀ c ∈ ws, isJsonWs c = true) →
        out.length < pf → sepOkB rest = true →
        parseF pf .val (ws ++ (out ++ rest)) = some (.v v, rest)) :
    ∀ (l : List JVal) (a : JVal) (outs : List (List Char)),
      (a :: l).mapM (dumpsF n) = some outs →
      ∀ (pf : Nat) (ws rest : List Char), (∀ c ∈ ws, isJsonWs c = true) →
        (joinSep [',', ' '] outs).length + 1 < pf →
        parseF pf .elems (ws ++ (joinSep [',', ' '] outs ++ (']' :: rest))) =
          some (.vs (a :: l), rest) := by
  intro l
  induction l with
  | nil =>
    intro a outs h pf ws rest hws hfuel
    obtain ⟨o, os, ho, hos, rfl⟩ := mapM_option_cons _ a [] outs h
    have h0 : List.mapM (dumpsF n) ([] : List JVal) = some ([] : List (List Char)) := rfl
    rw [h0] at hos
    obtain rfl := Option.some.inj hos
    have hJ : joinSep [',', ' '] [o] = o := rfl
    rw [hJ] at hfuel ⊢
    obtain ⟨q, rfl⟩ : ∃ q, pf = q + 1 := ⟨pf - 1, by omega⟩
    rw [parseF]
    have hval := IH a o ho q ws (']' :: rest) hws (by omega) (by rfl)
    rw [hval]
    rfl
  | cons b l ihl =>
    intro a outs h pf ws rest hws hfuel
    obtain ⟨o, os, ho, hos, rfl⟩ := mapM_option_cons _ a (b :: l) outs h
    obtain ⟨o2, os2, ho2, hos2, rfl⟩ := mapM_option_cons _ b l os hos
    obtain ⟨q, rfl⟩ : ∃ q, pf = q + 1 := ⟨pf - 1, by omega⟩
    rw [joinSep_cons_cons] at hfuel
    have hfuel2 : o.length < q ∧
        (joinSep [',', ' '] (o2 :: os2)).length + 1 < q := by
      simp only [List.length_append, List.length_cons] at hfuel
      omega
    have hshape : ws ++ (joinSep [',', ' '] (o :: o2 :: os2) ++ (']' :: rest)) =
        ws ++ (o ++ (',' :: ' ' ::
          (joinSep [',', ' '] (o2 :: os2) ++ (']' :: rest)))) := by
      rw [joinSep_cons_cons, List.append_assoc]
      rfl
    rw [hshape, parseF]
    have hval := IH a o ho q ws
      (',' :: ' ' :: (joinSep [',', ' '] (o2 :: os2) ++ (']' :: rest)))
      hws hfuel2.1 (by rfl)
    rw [hval]
    show (match parseF q PMode.elems
            (' ' :: (joinSep [',', ' '] (o2 :: os2) ++ (']' :: rest))) with
          | some (POut.vs xs, r3) => some (POut.vs (a :: xs), r3)
          | _ => none) = some (POut.vs (a :: b :: l), rest)
    have hrec := ihl b (o2 :: os2) hos q [' '] rest (by decide) hfuel2.2
    rw [List.singleton_append] at hrec
    rw [hrec]

/-- Helper: the member parser accepts the serialized members of a
non-empty object up to and including the closing brace, assuming the
round trip for the values. -/
theorem parse_members_aux (n : Nat)
    (IH : ∀ (v : JVal) (out : List Char), dumpsF n v = some out →
      ∀ (pf : Nat) (ws rest : List Char), (∀ c ∈ ws, isJsonWs c = true) →
        out.length < pf → sepOkB rest = true →
        parseF pf .val (ws ++ (out ++ rest)) = some (.v v, rest)) :
    ∀ (l : List (String × JVal)) (kv : String × JVal) (outs : List (List Char)),
      (kv :: l).mapM (fun kv => (dumpsF n kv.2).map
        (fun o => quoteStr kv.1 ++ ':' :: ' ' :: o)) = some outs →
      ∀ (pf : Nat) (ws rest : List Char), (∀ c ∈ ws, isJsonWs c = true) →
        (joinSep [',', ' '] outs).length + 1 < pf →
        parseF pf .members (ws ++ (joinSep [',', ' '] outs ++ ('}' :: rest))) =
          some (.fs (kv :: l), rest) := by
  intro l
  induction l with
  | nil =>
    intro kv outs h pf ws rest hws hfuel
    obtain ⟨o, os, ho, hos, rfl⟩ := mapM_option_cons _ kv [] outs h
    have h0 : List.mapM (fun kv => (dumpsF n (kv : String × JVal).2).map
        (fun o => quoteStr kv.1 ++ ':' :: ' ' :: o)) ([] : List (String × JVal)) =
        some ([] : List (List Char)) := rfl
    rw [h0] at hos
    obtain rfl := Option.some.inj hos
    rw [Option.map_eq_some'] at ho
    obtain ⟨ov, hov, rfl⟩ := ho
    have hJ : joinSep [',', ' '] [quoteStr kv.1 ++ ':' :: ' ' :: ov] =
        quoteStr kv.1 ++ ':' :: ' ' :: ov := rfl
    rw [hJ] at hfuel ⊢
    obtain ⟨q, rfl⟩ : ∃ q, pf = q + 1 := ⟨pf - 1, by omega⟩
    have hfuel2 : ov.length < q := by
      simp only [List.length_append, List.length_cons, quoteStr] at hfuel
      omega
    have hshape : ws ++ ((quoteStr kv.1 ++ ':' :: ' ' :: ov) ++ ('}' :: rest)) =
        ws ++ ('"' :: (escChars kv.1.data ++
          ('"' :: ':' :: ' ' :: (ov ++ ('}' :: rest))))) := by
      simp [quoteStr]
    rw [hshape, parseF]
    have hsk : skipWs (ws ++ ('"' :: (escChars kv.1.data ++
        ('"' :: ':' :: ' ' :: (ov ++ ('}' :: rest)))))) =
        '"' :: (escChars kv.1.data ++
          ('"' :: ':' :: ' ' :: (ov ++ ('}' :: rest)))) := by
      rw [skipWs_append_all ws _ hws]
      exact skipWs_cons_noop _ _ (by rfl)
    rw [hsk]
    show (match parseStrAux ((escChars kv.1.data ++
            ('"' :: ':' :: ' ' :: (ov ++ ('}' :: rest)))).length + 1)
            (escChars kv.1.data ++ ('"' :: ':' :: ' ' :: (ov ++ ('}' :: rest)))) with
          | some (k, r2) =>
            (match skipWs r2 with
             | ':' :: r3 =>
               (match parseF q PMode.val r3 with
                | some (POut.v x, r4) =>
                  (match skipWs r4 with
                   | ',' :: r5 =>
                     (match parseF q PMode.members r5 with
                      | some (POut.fs xs, r6) =>
                        some (POut.fs ((String.mk k, x) :: xs), r6)
                      | _ => none)
                   | '}' :: r5 => some (POut.fs [(String.mk k, x)], r5)
                   | _ => none)
                | _ => none)
             | _ => none)
          | none => none) = some (POut.fs [kv], rest)
    rw [parseStrAux_escChars kv.1.data (':' :: ' ' :: (ov ++ ('}' :: rest))) _
      (by simp [List.length_append]; omega)]
    show (match parseF q PMode.val (' ' :: (ov ++ ('}' :: rest))) with
          | some (POut.v x, r4) =>
            (match skipWs r4 with
             | ',' :: r5 =>
               (match parseF q PMode.members r5 with
                | some (POut.fs xs, r6) =>
                  some (POut.fs ((String.mk kv.1.data, x) :: xs), r6)
                | _ => none)
             | '}' :: r5 => some (POut.fs [(String.mk kv.1.data, x)], r5)
             | _ => none)
          | _ => none) = some (POut.fs [kv], rest)
    have hval := IH kv.2 ov hov q [' '] ('}' :: rest) (by decide) hfuel2 (by rfl)
    rw [List.singleton_append] at hval
    rw [hval]
    rfl
  | cons kv2 l ihl =>
    intro kv outs h pf ws rest hws hfuel
    obtain ⟨o, os, ho, hos, rfl⟩ := mapM_option_cons _ kv (kv2 :: l) outs h
    obtain ⟨o2, os2, ho2, hos2, rfl⟩ := mapM_option_cons _ kv2 l os hos
    rw [Option.map_eq_some'] at ho
    obtain ⟨ov, hov, rfl⟩ := ho
    obtain ⟨q, rfl⟩ : ∃ q, pf = q + 1 := ⟨pf - 1, by omega⟩
    rw [joinSep_cons_cons] at hfuel
    have hfuel2 : ov.length < q ∧
        (joinSep [',', ' '] (o2 :: os2)).length + 1 < q := by
      simp only [List.length_append, List.length_cons, quoteStr] at hfuel
      omega
    have hshape : ws ++ (joinSep [',', ' ']
        ((quoteStr kv.1 ++ ':' :: ' ' :: ov) :: o2 :: os2) ++ ('}' :: rest)) =
        ws ++ ('"' :: (escChars kv.1.data ++ ('"' :: ':' :: ' ' ::
          (ov ++ (',' :: ' ' ::
            (joinSep [',', ' '] (o2 :: os2) ++ ('}' :: rest))))))) := by
      rw [joinSep_cons_cons]
      simp [quoteStr]
    rw [hshape, parseF]
    have hsk : skipWs (ws ++ ('"' :: (escChars kv.1.data ++ ('"' :: ':' :: ' ' ::
        (ov ++ (',' :: ' ' ::
          (joinSep [',', ' '] (o2 :: os2) ++ ('}' :: rest)))))))) =
        '"' :: (escChars kv.1.data ++ ('"' :: ':' :: ' ' ::
          (ov ++ (',' :: ' ' ::
            (joinSep [',', ' '] (o2 :: os2) ++ ('}' :: rest)))))) := by
      rw [skipWs_append_all ws _ hws]
      exact skipWs_cons_noop _ _ (by rfl)
    rw [hsk]
    show (match parseStrAux ((escChars kv.1.data ++ ('"' :: ':' :: ' ' ::
            (ov ++ (',' :: ' ' ::
              (joinSep [',', ' '] (o2 :: os2) ++ ('}' :: rest)))))).length + 1)
            (escChars kv.1.data ++ ('"' :: ':' :: ' ' ::
              (ov ++ (',' :: ' ' ::
                (joinSep [',', ' '] (o2 :: os2) ++ ('}' :: rest)))))) with
          | some (k, r2) =>
            (match skipWs r2 with
             | ':' :: r3 =>
               (match parseF q PMode.val r3 with
                | some (POut.v x, r4) =>
                  (match skipWs r4 with
                   | ',' :: r5 =>
                     (match parseF q PMode.members r5 with
                      | some (POut.fs xs, r6) =>
                        some (POut.fs ((String.mk k, x) :: xs), r6)
                      | _ => none)
                   | '}' :: r5 => some (POut.fs [(String.mk k, x)], r5)
                   | _ => none)
                | _ => none)
             | _ => none)
          | none => none) = some (POut.fs (kv :: kv2 :: l), rest)
    rw [parseStrAux_escChars kv.1.data (':' :: ' ' ::
      (ov ++ (',' :: ' ' :: (joinSep [',', ' '] (o2 :: os2) ++ ('}' :: rest))))) _
      (by simp [List.length_append]; omega)]
    show (match parseF q PMode.val (' ' ::
            (ov ++ (',' :: ' ' ::
              (joinSep [',', ' '] (o2 :: os2) ++ ('}' :: rest))))) with
          | some (POut.v x, r4) =>
            (match skipWs r4 with
             | ',' :: r5 =>
               (match parseF q PMode.members r5 with
                | some (POut.fs xs, r6) =>
                  some (POut.fs ((String.mk kv.1.data, x) :: xs), r6)
                | _ => none)
             | '}' :: r5 => some (POut.fs [(String.mk kv.1.data, x)], r5)
             | _ => none)
          | _ => none) = some (POut.fs (kv :: kv2 :: l), rest)
    have hval := IH kv.2 ov hov q [' ']
      (',' :: ' ' :: (joinSep [',', ' '] (o2 :: os2) ++ ('}' :: rest)))
      (by decide) hfuel2.1 (by rfl)
    rw [List.singleton_append] at hval
    rw [hval]
    show (match parseF q PMode.members
            (' ' :: (joinSep [',', ' '] (o2 :: os2) ++ ('}' :: rest))) with
          | some (POut.fs xs, r6) =>
            some (POut.fs ((String.mk kv.1.data, kv.2) :: xs), r6)
          | _ => none) = some (POut.fs (kv :: kv2 :: l), rest)
    have hrec := ihl kv2 (o2 :: os2) hos q [' '] rest (by decide) hfuel2.2
    rw [List.singleton_append] at hrec
    rw [hrec]

/-- Helper: the main serializer-parser round trip — whatever the fuelled
serializer emits, the value parser reads back to the same value, in any
whitespace-prefixed position followed by a separator context, given
enough parser fuel. -/
theorem parse_dumpsF : ∀ (n : Nat) (v : JVal) (out : List Char),
    dumpsF n v = some out →
    ∀ (pf : Nat) (ws rest : List Char), (∀ c ∈ ws, isJsonWs c = true) →
      out.length < pf → sepOkB rest = true →
      parseF pf .val (ws ++ (out ++ rest)) = some (.v v, rest) := by
  intro n
  induction n with
  | zero => intro v out h; simp [dumpsF] at h
  | succ n ih =>
    intro v out h pf ws rest hws hfuel hsep
    obtain ⟨q, rfl⟩ : ∃ q, pf = q + 1 := ⟨pf - 1, by omega⟩
    cases v with
    | null =>
      simp only [dumpsF] at h
      obtain rfl := Option.some.inj h
      rw [parseF_val_skipEq q _ ('n' :: 'u' :: 'l' :: 'l' :: rest) (by
        rw [skipWs_append_all ws _ hws]
        rfl)]
      exact parseF_val_lit_null q rest
    | bool b =>
      cases b with
      | false =>
        simp only [dumpsF] at h
        obtain rfl := Option.some.inj h
        rw [parseF_val_skipEq q _ ('f' :: 'a' :: 'l' :: 's' :: 'e' :: rest) (by
          rw [skipWs_append_all ws _ hws]
          rfl)]
        exact parseF_val_lit_false q rest
      | true =>
        simp only [dumpsF] at h
        obtain rfl := Option.some.inj h
        rw [parseF_val_skipEq q _ ('t' :: 'r' :: 'u' :: 'e' :: rest) (by
          rw [skipWs_append_all ws _ hws]
          rfl)]
        exact parseF_val_lit_true q rest
    | num i =>
      simp only [dumpsF] at h
      obtain rfl := Option.some.inj h
      obtain ⟨d, ds, hds, hd⟩ := intRepr_shape i
      have hdfacts : isJsonWs d = false ∧ d ≠ 'n' ∧ d ≠ 't' ∧ d ≠ 'f' ∧
          d ≠ '"' ∧ d ≠ '{' ∧ d ≠ '[' ∧ (d = '-' ∨ d.isDigit = true) := by
        rcases hd with rfl | ⟨k, hk, rfl⟩
        · exact ⟨by decide, by decide, by decide, by decide, by decide,
            by decide, by decide, Or.inl rfl⟩
        · obtain ⟨p1, _, _, _, p5, p6, p7, p8, p9, p10⟩ := digit_props k hk
          exact ⟨p1, p5, p6, p7, p8, p9, p10, Or.inr (digit_char_facts k hk).1⟩
      have hsk : skipWs (ws ++ (intRepr i ++ rest)) = d :: (ds ++ rest) := by
        rw [skipWs_append_all ws _ hws, hds, List.cons_append]
        exact skipWs_cons_noop _ _ hdfacts.1
      rw [parseF_val_other q _ d (ds ++ rest) hsk hdfacts.2.1 hdfacts.2.2.1
        hdfacts.2.2.2.1 hdfacts.2.2.2.2.1 hdfacts.2.2.2.2.2.1
        hdfacts.2.2.2.2.2.2.1]
      rw [if_pos hdfacts.2.2.2.2.2.2.2]
      have hpn := parseNumber_intRepr i rest (sepOk_numBoundary rest hsep)
      rw [hds, List.cons_append] at hpn
      rw [hpn]
      rfl
    | str s =>
      simp only [dumpsF] at h
      obtain rfl := Option.some.inj h
      have hshape : ws ++ (quoteStr s ++ rest) =
          ws ++ ('"' :: (escChars s.data ++ ('"' :: rest))) := by
        simp [quoteStr]
      rw [hshape]
      rw [parseF_val_skipEq q _ ('"' :: (escChars s.data ++ ('"' :: rest))) (by
        rw [skipWs_append_all ws _ hws])]
      rw [parseF_val_lit_str]
      rw [parseStrAux_escChars s.data rest _ (by
        simp [List.length_append]
        omega)]
      rfl
    | arr items =>
      simp only [dumpsF] at h
      rw [Option.map_eq_some'] at h
      obtain ⟨outs, hmapM, rfl⟩ := h
      cases items with
      | nil =>
        have h0 : List.mapM (dumpsF n) ([] : List JVal) =
            some ([] : List (List Char)) := rfl
        rw [h0] at hmapM
        obtain rfl := Option.some.inj hmapM
        rw [parseF_val_skipEq q _ ('[' :: ']' :: rest) (by
          rw [skipWs_append_all ws _ hws]
          rfl)]
        exact parseF_val_arr_nil q rest
      | cons a l =>
        obtain ⟨o, os, ho, hos, rfl⟩ := mapM_option_cons _ a l outs hmapM
        obtain ⟨c0, o', rfl, hc0a, _, hc0c, _⟩ := dumpsF_head n a o ho
        have hJhead : ∃ K, joinSep [',', ' '] ((c0 :: o') :: os) = c0 :: K := by
          cases os with
          | nil => exact ⟨o', rfl⟩
          | cons p ps =>
            refine ⟨o' ++ (',' :: ' ' :: joinSep [',', ' '] (p :: ps)), ?_⟩
            rw [joinSep_cons_cons]
            rfl
        obtain ⟨K, hK⟩ := hJhead
        have hfuel2 : (joinSep [',', ' '] ((c0 :: o') :: os)).length + 1 < q := by
          simp only [List.length_append, List.length_cons] at hfuel
          omega
        have helems := parse_elems_aux n ih l a ((c0 :: o') :: os) hmapM q []
          rest (by intro c hc; exact absurd hc (List.not_mem_nil c))
          hfuel2
        rw [List.nil_append] at helems
        rw [hK, List.cons_append] at helems
        refine parseF_val_arr_cons q _
          (joinSep [',', ' '] ((c0 :: o') :: os) ++ (']' :: rest)) c0
          (K ++ (']' :: rest)) (a :: l) rest ?_ ?_ hc0c helems
        · rw [skipWs_append_all ws _ hws,
            show ('[' :: joinSep [',', ' '] ((c0 :: o') :: os) ++ [']']) ++ rest =
              '[' :: (joinSep [',', ' '] ((c0 :: o') :: os) ++ (']' :: rest)) from by
                rw [List.append_assoc, List.cons_append]
                rfl]
          exact skipWs_cons_noop _ _ (by rfl)
        · rw [show joinSep [',', ' '] ((c0 :: o') :: os) ++ (']' :: rest) =
              c0 :: (K ++ (']' :: rest)) from by rw [hK]; rfl]
          exact skipWs_cons_noop _ _ hc0a
    | obj fields =>
      simp only [dumpsF] at h
      rw [Option.map_eq_some'] at h
      obtain ⟨outs, hmapM, rfl⟩ := h
      cases fields with
      | nil =>
        have h0 : List.mapM (fun kv => (dumpsF n (kv : String × JVal).2).map
            (fun o => quoteStr kv.1 ++ ':' :: ' ' :: o))
            ([] : List (String × JVal)) = some ([] : List (List Char)) := rfl
        rw [h0] at hmapM
        obtain rfl := Option.some.inj hmapM
        rw [parseF_val_skipEq q _ ('{' :: '}' :: rest) (by
          rw [skipWs_append_all ws _ hws]
          rfl)]
        exact parseF_val_obj_nil q rest
      | cons kv l =>
        obtain ⟨o, os, ho, hos, rfl⟩ := mapM_option_cons _ kv l outs hmapM
        rw [Option.map_eq_some'] at ho
        obtain ⟨ov, hov, rfl⟩ := ho
        have hohead : quoteStr kv.1 ++ ':' :: ' ' :: ov =
            '"' :: (escChars kv.1.data ++ ('"' :: ':' :: ' ' :: ov)) := by
          simp [quoteStr]
        have hmapM2 := hmapM
        rw [hohead] at hmapM2 hfuel ⊢
        have hJhead : ∃ K, joinSep [',', ' ']
            (('"' :: (escChars kv.1.data ++ ('"' :: ':' :: ' ' :: ov))) :: os) =
            '"' :: K := by
          cases os with
          | nil => exact ⟨_, rfl⟩
          | cons p ps =>
            refine ⟨(escChars kv.1.data ++ ('"' :: ':' :: ' ' :: ov)) ++
              (',' :: ' ' :: joinSep [',', ' '] (p :: ps)), ?_⟩
            rw [joinSep_cons_cons]
            rfl
        obtain ⟨K, hK⟩ := hJhead
        have hfuel2 : (joinSep [',', ' ']
            (('"' :: (escChars kv.1.data ++ ('"' :: ':' :: ' ' :: ov))) :: os)).length
            + 1 < q := by
          simp only [List.length_append, List.length_cons] at hfuel
          omega
        have hmem := parse_members_aux n ih l kv
          (('"' :: (escChars kv.1.data ++ ('"' :: ':' :: ' ' :: ov))) :: os)
          hmapM2 q [] rest
          (by intro c hc; exact absurd hc (List.not_mem_nil c)) hfuel2
        rw [List.nil_append] at hmem
        rw [hK, List.cons_append] at hmem
        refine parseF_val_obj_cons q _
          (joinSep [',', ' ']
            (('"' :: (escChars kv.1.data ++ ('"' :: ':' :: ' ' :: ov))) :: os) ++
            ('}' :: rest)) '"' (K ++ ('}' :: rest)) (kv :: l) rest ?_ ?_
          (by decide) hmem
        · rw [skipWs_append_all ws _ hws,
            show ('{' :: joinSep [',', ' ']
                (('"' :: (escChars kv.1.data ++ ('"' :: ':' :: ' ' :: ov))) :: os) ++
                ['}']) ++ rest =
              '{' :: (joinSep [',', ' ']
                (('"' :: (escChars kv.1.data ++ ('"' :: ':' :: ' ' :: ov))) :: os) ++
                ('}' :: rest)) from by
                rw [List.append_assoc, List.cons_append]
                rfl]
          exact skipWs_cons_noop _ _ (by rfl)
        · rw [show joinSep [',', ' ']
              (('"' :: (escChars kv.1.data ++ ('"' :: ':' :: ' ' :: ov))) :: os) ++
              ('}' :: rest) = '"' :: (K ++ ('}' :: rest)) from by rw [hK]; rfl]
          exact skipWs_cons_noop _ _ (by rfl)

/-- Helper: strict JSON parsing of serialized output recovers the value. -/
theorem jsonLoadsL_dumpsF (n : Nat) (v : JVal) (out : List Char)
    (h : dumpsF n v = some out) : jsonLoadsL out = some v := by
  have hp := parse_dumpsF n v out h (out.length + 1) [] []
    (by intro c hc; exact absurd hc (List.not_mem_nil c)) (by omega) rfl
  rw [List.nil_append, List.append_nil] at hp
  rw [jsonLoadsL, hp]
  rfl

/-- Helper: the body decoder on exactly a serialized value returns it. -/
theorem parseResponseText_dumpsF (n : Nat) (v : JVal) (out : List Char)
    (h : dumpsF n v = some out) :
    parseResponseText (String.mk out) = .ok v := by
  obtain ⟨c0, o', rfl, _, hc0sp, _, _⟩ := dumpsF_head n v out h
  obtain ⟨cl, hcl, hclsp⟩ := dumpsF_last n v _ h
  have hstrip : pyStripL (c0 :: o') = c0 :: o' :=
    pyStripL_noop _ c0 cl rfl hc0sp hcl hclsp
  have hloads := jsonLoadsL_dumpsF n v _ h
  show (if (pyStripL (c0 :: o')).isEmpty = true then Except.ok (JVal.obj [])
        else match jsonLoadsL (pyStripL (c0 :: o')) with
          | some v => Except.ok v
          | none => parseSsePayload (String.mk (pyStripL (c0 :: o')))) =
    Except.ok v
  rw [hstrip]
  rw [if_neg (by simp)]
  rw [hloads]

/-- Helper: printable ASCII characters are not newlines, carriage returns
or line boundaries. -/
theorem ascii_char_facts (c : Char) (h1 : 32 ≤ c.toNat) (h2 : c.toNat ≤ 126) :
    c ≠ '\n' ∧ c ≠ '\r' ∧ isLineBoundary c = false := by
  refine ⟨?_, ?_, ?_⟩
  · intro h; subst h; exact absurd h1 (by decide)
  · intro h; subst h; exact absurd h1 (by decide)
  · by_contra hb
    simp only [Bool.not_eq_false] at hb
    simp only [isLineBoundary, Bool.or_eq_true, decide_eq_true_eq] at hb
    rcases hb with ((((((((h | h) | h) | h) | h) | h) | h) | h) | h) | h <;>
      (subst h
       first
         | exact absurd h1 (by decide)
         | exact absurd h2 (by decide))

/-- Helper: the blank-line splitter peels off a newline-free prefix closed
by a double newline. -/
theorem splitNN_append_nn (B : List Char) : ∀ (A : List Char),
    (∀ c ∈ A, c ≠ '\n') →
    splitNN (A ++ '\n' :: '\n' :: B) = A :: splitNN B := by
  intro A
  induction A with
  | nil => intro _; rfl
  | cons c A ih =>
    intro hA
    have hc : c ≠ '\n' := hA c (List.mem_cons_self c A)
    have hrec := ih (fun x hx => hA x (List.mem_cons_of_mem c hx))
    conv_lhs => rw [splitNN.eq_def]
    split
    · rename_i heq
      injection heq
    · rename_i rest heq
      injection heq with h1 h2
      exact absurd h1 hc
    · rename_i heq
      injection heq with h1 h2
      subst h1
      subst h2
      show (match splitNN (A ++ '\n' :: '\n' :: B) with
            | [] => [[c]]
            | l :: ls => (c :: l) :: ls) = (c :: A) :: splitNN B
      rw [hrec]

/-- Helper: the blank-line splitter is trivial on newline-free input. -/
theorem splitNN_no_newline : ∀ (A : List Char), (∀ c ∈ A, c ≠ '\n') →
    splitNN A = [A] := by
  intro A
  induction A with
  | nil => intro _; rfl
  | cons c A ih =>
    intro hA
    have hc : c ≠ '\n' := hA c (List.mem_cons_self c A)
    have hrec := ih (fun x hx => hA x (List.mem_cons_of_mem c hx))
    rw [splitNN.eq_def]
    split
    · rename_i heq
      injection heq
    · rename_i rest heq
      injection heq with h1 h2
      exact absurd h1 hc
    · rename_i heq
      injection heq with h1 h2
      subst h1
      subst h2
      rw [hrec]

set_option maxHeartbeats 1600000 in
/-- Helper: splitting lines is trivial on boundary-free non-empty input. -/
theorem pySplitlines_single : ∀ (A : List Char), A ≠ [] →
    (∀ c ∈ A, isLineBoundary c = false) → pySplitlines A = [A] := by
  intro A
  induction A with
  | nil => intro h _; exact absurd rfl h
  | cons c A ih =>
    intro _ hA
    have hc : isLineBoundary c = false := hA c (List.mem_cons_self c A)
    rw [pySplitlines.eq_def]
    split
    · rename_i heq
      injection heq
    · rename_i rest heq
      injection heq with h1 h2
      rw [h1] at hc
      exact absurd hc (by decide)
    · rename_i heq
      injection heq with h1 h2
      subst h1
      subst h2
      rw [if_neg (by simp [hc])]
      cases A with
      | nil => rfl
      | cons d A2 =>
        rw [ih (by simp) (fun x hx => hA x (List.mem_cons_of_mem c hx))]

/-- Helper: parts that join with a newline separator to a newline-free
non-empty text form exactly one part, the text itself. -/
theorem joinSep_newline_single (outP : List Char) (hne : outP ≠ [])
    (hnl : ∀ c ∈ outP, c ≠ '\n') :
    ∀ lines, joinSep ['\n'] lines = outP → lines = [outP] := by
  intro lines hj
  cases lines with
  | nil => exact absurd hj.symm hne
  | cons l ls =>
    cases ls with
    | nil =>
      rw [show joinSep ['\n'] [l] = l from rfl] at hj
      rw [hj]
    | cons l2 ls2 =>
      exfalso
      have hmem : '\n' ∈ joinSep ['\n'] (l :: l2 :: ls2) := by
        show '\n' ∈ (l ++ ['\n']) ++ joinSep ['\n'] (l2 :: ls2)
        exact List.mem_append.mpr (Or.inl
          (List.mem_append.mpr (Or.inr (List.mem_cons_self _ _))))
      rw [hj] at hmem
      exact hnl '\n' hmem rfl

/-- Helper: an SSE stream carrying a serialized payload on a single data
line decodes to that payload. -/
theorem sse_roundtrip_aux (P : JVal) (m : Nat) (outP : List Char)
    (hP : dumpsF m P = some outP) : parseSsePayload (sseStream [outP]) = .ok P := by
  obtain ⟨c0, o', rfl, _, hc0sp, _, _⟩ := dumpsF_head m P outP hP
  obtain ⟨cl, hcl, hclsp⟩ := dumpsF_last m P _ hP
  have hascii := dumpsF_ascii m P _ hP
  have hno_nl : ∀ c ∈ c0 :: o', c ≠ '\n' :=
    fun c hc => (ascii_char_facts c (hascii c hc).1 (hascii c hc).2).1
  have hno_cr : ∀ c ∈ c0 :: o', c ≠ '\r' :=
    fun c hc => (ascii_char_facts c (hascii c hc).1 (hascii c hc).2).2.1
  have hno_lb : ∀ c ∈ c0 :: o', isLineBoundary c = false :=
    fun c hc => (ascii_char_facts c (hascii c hc).1 (hascii c hc).2).2.2
  have hdata : (sseStream [c0 :: o']).data =
      ('d' :: 'a' :: 't' :: 'a' :: ':' :: ' ' :: (c0 :: o')) ++
        ('\n' :: '\n' :: []) := by
    simp [sseStream]
  have hAprops : ∀ c ∈ ('d' :: 'a' :: 't' :: 'a' :: ':' :: ' ' :: (c0 :: o')),
      isLineBoundary c = false ∧ c ≠ '\n' ∧ c ≠ '\r' := by
    intro c hc
    simp only [List.mem_cons] at hc
    rcases hc with rfl | rfl | rfl | rfl | rfl | rfl | h
    · exact ⟨by decide, by decide, by decide⟩
    · exact ⟨by decide, by decide, by decide⟩
    · exact ⟨by decide, by decide, by decide⟩
    · exact ⟨by decide, by decide, by decide⟩
    · exact ⟨by decide, by decide, by decide⟩
    · exact ⟨by decide, by decide, by decide⟩
    · exact ⟨hno_lb c (List.mem_cons.mpr h), hno_nl c (List.mem_cons.mpr h),
        hno_cr c (List.mem_cons.mpr h)⟩
  have hlastA : ('d' :: 'a' :: 't' :: 'a' :: ':' :: ' ' :: (c0 :: o')).getLast? =
      some cl := by
    rw [List.getLast?_cons_cons, List.getLast?_cons_cons, List.getLast?_cons_cons,
      List.getLast?_cons_cons, List.getLast?_cons_cons, List.getLast?_cons_cons]
    exact hcl
  have hstripA : pyStripL ('d' :: 'a' :: 't' :: 'a' :: ':' :: ' ' :: (c0 :: o')) =
      'd' :: 'a' :: 't' :: 'a' :: ':' :: ' ' :: (c0 :: o') :=
    pyStripL_noop _ 'd' cl rfl (by decide) hlastA hclsp
  have hfilter : ((sseStream [c0 :: o']).data.filter (fun c => c != '\r')) =
      (sseStream [c0 :: o']).data := by
    rw [List.filter_eq_self]
    intro a ha
    rw [hdata] at ha
    rcases List.mem_append.mp ha with hl | hr
    · simp only [bne_iff_ne, ne_eq]
      exact (hAprops a hl).2.2
    · simp only [List.mem_cons, List.not_mem_nil, or_false, or_self] at hr
      subst hr
      decide
  have hsplit : splitNN ((sseStream [c0 :: o']).data) =
      [('d' :: 'a' :: 't' :: 'a' :: ':' :: ' ' :: (c0 :: o')), []] := by
    rw [hdata]
    rw [splitNN_append_nn [] _ (fun c hc => (hAprops c hc).2.1)]
    rfl
  have hsegs : sseSegments (sseStream [c0 :: o']) =
      [('d' :: 'a' :: 't' :: 'a' :: ':' :: ' ' :: (c0 :: o'))] := by
    show (((splitNN ((sseStream [c0 :: o']).data.filter (fun c => c != '\r'))).map
      pyStripL).filter (fun s => !s.isEmpty)) = _
    rw [hfilter, hsplit]
    rw [List.map_cons, List.map_cons, List.map_nil, hstripA]
    show ([('d' :: 'a' :: 't' :: 'a' :: ':' :: ' ' :: (c0 :: o')),
      pyStripL []].filter (fun s => !s.isEmpty)) = _
    rfl
  have hval : (if lowerStartsDataColon
        (pyStripL ('d' :: 'a' :: 't' :: 'a' :: ':' :: ' ' :: (c0 :: o')))
      then some (pyLstripL (afterColon
        (pyStripL ('d' :: 'a' :: 't' :: 'a' :: ':' :: ' ' :: (c0 :: o')))))
      else none) = some (c0 :: o') := by
    rw [hstripA]
    rw [if_pos (by rfl)]
    show some (pyLstripL (' ' :: (c0 :: o'))) = some (c0 :: o')
    show some (List.dropWhile pyIsSpace (c0 :: o')) = some (c0 :: o')
    rw [dropWhile_head_noop pyIsSpace (c0 :: o') c0 rfl hc0sp]
  have hdls : sseDataLines ('d' :: 'a' :: 't' :: 'a' :: ':' :: ' ' :: (c0 :: o')) =
      [c0 :: o'] := by
    show ((pySplitlines ('d' :: 'a' :: 't' :: 'a' :: ':' :: ' ' :: (c0 :: o'))).filterMap
      (fun line =>
        let stripped := pyStripL line
        if lowerStartsDataColon stripped then some (pyLstripL (afterColon stripped))
        else none)) = [c0 :: o']
    rw [pySplitlines_single _ (by simp) (fun c hc => (hAprops c hc).1)]
    rw [List.filterMap_cons, List.filterMap_nil]
    have happ : (let stripped :=
          pyStripL ('d' :: 'a' :: 't' :: 'a' :: ':' :: ' ' :: (c0 :: o'))
        if lowerStartsDataColon stripped
        then some (pyLstripL (afterColon stripped))
        else none) = some (c0 :: o') := hval
    rw [happ]
  show sseLoop (sseSegments (sseStream [c0 :: o'])) = Except.ok P
  rw [hsegs]
  show (if (sseDataLines
        ('d' :: 'a' :: 't' :: 'a' :: ':' :: ' ' :: (c0 :: o'))).isEmpty = true
      then sseLoop []
      else match jsonLoadsL (joinSep ['\n'] (sseDataLines
        ('d' :: 'a' :: 't' :: 'a' :: ':' :: ' ' :: (c0 :: o')))) with
        | some v => Except.ok v
        | none => sseLoop []) = Except.ok P
  rw [hdls]
  show (match jsonLoadsL (c0 :: o') with
        | some v => Except.ok v
        | none => sseLoop []) = Except.ok P
  rw [jsonLoadsL_dumpsF m P _ hP]

/-- C5: decoding is a left inverse of serialization in both wire formats —
the body decoder applied to the canonical JSON serialization of a response
object returns that object unchanged, and an SSE stream whose data lines
join to the serialization of a payload decodes to that payload. -/
theorem c5_decode_left_inverse (v P : JVal) (n m : Nat) (s sP : String)
    (lines : List (List Char))
    (hv : json_dumps n v = some s)
    (hP : json_dumps m P = some sP)
    (hjoin : joinSep ['\n'] lines = sP.data) :
    parseResponseText s = .ok v ∧ parseSsePayload (sseStream lines) = .ok P := by
  rw [json_dumps, Option.map_eq_some'] at hv hP
  obtain ⟨out, hout, rfl⟩ := hv
  obtain ⟨outP, houtP, rfl⟩ := hP
  have hjoin2 : joinSep ['\n'] lines = outP := hjoin
  have hasciiP := dumpsF_ascii m P outP houtP
  obtain ⟨cP, oP, hPcons, _, _, _, _⟩ := dumpsF_head m P outP houtP
  have hlines : lines = [outP] := joinSep_newline_single outP
    (by rw [hPcons]; exact List.cons_ne_nil _ _)
    (fun c hc => (ascii_char_facts c (hasciiP c hc).1 (hasciiP c hc).2).1)
    lines hjoin2
  rw [hlines]
  exact ⟨parseResponseText_dumpsF n v out hout, sse_roundtrip_aux P m outP houtP⟩

/-- Witness for C5 at a concrete object payload. -/
theorem c5_decode_left_inverse_witness :
    json_dumps 2 (JVal.obj [("a", JVal.num 1)]) = some "\x7b\"a\": 1\x7d" ∧
    (parseResponseText "\x7b\"a\": 1\x7d" = Except.ok (JVal.obj [("a", JVal.num 1)]) ∧
     parseSsePayload (sseStream [("\x7b\"a\": 1\x7d" : String).data]) =
       Except.ok (JVal.obj [("a", JVal.num 1)])) :=
  ⟨rfl, c5_decode_left_inverse (JVal.obj [("a", JVal.num 1)])
    (JVal.obj [("a", JVal.num 1)]) 2 2 "\x7b\"a\": 1\x7d" "\x7b\"a\": 1\x7d"
    [("\x7b\"a\": 1\x7d" : String).data] rfl rfl rfl⟩
